import Mathlib

/-!
# PM access instrumentation (`include/linux/pm_instr.h`)

A shallow embedding of the statement-expression wrappers of `pm_instr.h`.

* Memory is a flat byte map `Nat → Nat`; a scalar persistent variable is an
  unsigned little-endian integer field given by its address and `sizeof`.
* The kernel trace buffer is a list of `TraceLine`s: the format string and
  the argument list handed to `trace_printk`.
* The text of a trace line is the format string with its conversions
  replaced by the arguments (`vsnprintf`, `TraceLine.text`).
* `pmfs_tracemask` is a component of the state that the wrappers only read.
* Every byte store goes through `Heap.store8`, which also records the
  address in the ghost list `written`, so that the footprint of an
  operation can be compared with the extent recorded in its trace line.
-/

namespace PmInstr

/-! ## Trace buffer -/

/-- One variadic argument of a `trace_printk` call, tagged by the conversion
that consumes it (`%s`, `%p`, `%lu`, `%u`, `%d`). -/
inductive Arg where
  | str (s : String)
  | ptr (a : Nat)
  | ulong (n : Nat)
  | uint (n : Nat)
  | int (i : Int)
  deriving DecidableEq

/-- One record of the trace buffer: format string and arguments. -/
structure TraceLine where
  fmt : String
  args : List Arg
  deriving DecidableEq

/-- Byte-addressed memory. `written` is a ghost list of the addresses of all
byte stores performed so far, in program order. -/
structure Heap where
  mem : Nat → Nat
  written : List Nat

/-- Machine state seen by the wrappers: the global `pmfs_tracemask`, the
memory and the trace buffer. -/
structure State where
  pmfs_tracemask : Nat
  heap : Heap
  log : List TraceLine

/-- Call site of a wrapper: the values of `__FILE__` and `__LINE__`. -/
structure Site where
  file : String
  line : Nat

/-- Value of a statement expression. -/
inductive Val where
  | void
  | int (i : Int)
  | word (n : Nat)
  | ptr (a : Nat)
  deriving DecidableEq

/-- An lvalue naming an unsigned integer field: `&f` and `sizeof(f)`. -/
structure Field where
  addr : Nat
  width : Nat
  deriving DecidableEq

/-! ## Markers (lines 26-43) -/

def PM_WRT_MARKER : String := "PM_W"
def PM_RD_MARKER : String := "PM_R"
def PM_NTI : String := "PM_I"
def PM_FLUSH_MARKER : String := "PM_L"
def PM_TX_START : String := "PM_XS"
def PM_FENCE_MARKER : String := "PM_N"
def PM_COMMIT_MARKER : String := "PM_C"
def PM_BARRIER_MARKER : String := "PM_B"
def PM_TX_END : String := "PM_XE"

/-! ## Integer conversions -/

/-- Size of the address space, used as the bound of the string loops. -/
def ADDR_SPACE : Nat := 2 ^ 64

/-- Conversion to `unsigned long` (64 bit). -/
def toULong (n : Nat) : Nat := n % 2 ^ 64

/-- Conversion to `unsigned int` (32 bit), also what `%u` reads. -/
def toUInt (n : Nat) : Nat := n % 2 ^ 32

/-- The cast `(int)n` of an unsigned value (two's complement, 32 bit). -/
def toInt (n : Nat) : Int := (((n + 2 ^ 31) % 2 ^ 32 : Nat) : Int) - 2 ^ 31

/-- An `int` read back by `%u`. -/
def intToUInt (i : Int) : Nat := (i % 2 ^ 32).toNat

/-! ## Kernel helpers the wrappers call -/

/-- Modelled from the spec: trace_printk (kernel tracing, not under src/) is
the Sink, an append-only channel: the record is appended to the trace buffer
and nothing else changes. -/
def trace_printk (fmt : String) (args : List Arg) (s : State) : State :=
  { s with log := s.log ++ [TraceLine.mk fmt args] }

/-- The guard of lines 19-23: `if (pmfs_tracemask) trace_printk(args);`. -/
def pmfs_trace_printk (fmt : String) (args : List Arg) (s : State) : State :=
  if s.pmfs_tracemask ≠ 0 then trace_printk fmt args s else s

/-- Line 24: `#define PM_TRACE pmfs_trace_printk`. -/
def PM_TRACE (fmt : String) (args : List Arg) (s : State) : State :=
  pmfs_trace_printk fmt args s

/-- A single byte store. -/
def Heap.store8 (h : Heap) (a b : Nat) : Heap :=
  { mem := fun x => if x = a then b else h.mem x, written := h.written ++ [a] }

/-- Runs a memory operation on the memory component of the state. -/
def State.onHeap (s : State) (op : Heap → Val × Heap) : Val × State :=
  ((op s.heap).1, { s with heap := (op s.heap).2 })

/-- Value of the `w`-byte little-endian unsigned field at `a`. -/
def load (m : Nat → Nat) : Nat → Nat → Nat
  | _, 0 => 0
  | a, w + 1 => m a + 256 * load m (a + 1) w

/-- Store of `v`, converted to a `w`-byte unsigned field, at `a`. -/
def storeLE : Nat → Nat → Nat → Heap → Heap
  | _, 0, _, h => h
  | a, w + 1, v, h => storeLE (a + 1) w (v / 256) (h.store8 a (v % 256))

/-- The C assignment `pm_dst = v`: stores the converted value; the value of
the expression is the value of the left operand after the assignment. -/
def assign (pm_dst : Field) (v : Nat) (h : Heap) : Val × Heap :=
  (Val.word (v % 2 ^ (8 * pm_dst.width)), storeLE pm_dst.addr pm_dst.width v h)

/-- Loop of memset: `while (count--) *xs++ = c;`. -/
def memsetLoop : Nat → Nat → Nat → Heap → Heap
  | 0, _, _, h => h
  | n + 1, xs, c, h => memsetLoop n (xs + 1) c (h.store8 xs (c % 256))

/-- Modelled from the spec: memset (lib/string.c, not under src/), "fill a
byte range with a value"; the count is converted to `size_t`, the result is
the start of the range. -/
def memset (dst c count : Nat) (h : Heap) : Val × Heap :=
  (Val.ptr dst, memsetLoop (toULong count) dst c h)

/-- Loop of memcpy: `while (count--) *tmp++ = *s++;`. -/
def memcpyLoop : Nat → Nat → Nat → Heap → Heap
  | 0, _, _, h => h
  | n + 1, tmp, src, h => memcpyLoop n (tmp + 1) (src + 1) (h.store8 tmp (h.mem src))

/-- Modelled from the spec: memcpy (lib/string.c, not under src/), "copy N
bytes from source to destination", as a forward byte copy; the count is
converted to `size_t`, the result is the destination. -/
def memcpy (dst src count : Nat) (h : Heap) : Val × Heap :=
  (Val.ptr dst, memcpyLoop (toULong count) dst src h)

/-- Loop of strlen, bounded by the address space. -/
def strlenFrom (m : Nat → Nat) : Nat → Nat → Nat
  | 0, _ => 0
  | fuel + 1, sc => if m sc = 0 then 0 else strlenFrom m fuel (sc + 1) + 1

/-- Modelled from the spec: strlen (lib/string.c, not under src/), the
"source length": number of bytes before the first NUL. -/
def strlen (m : Nat → Nat) (src : Nat) : Nat := strlenFrom m ADDR_SPACE src

/-- Loop of strcpy: `while ((*dest++ = *src++) != 0);`, bounded by the
address space. -/
def strcpyLoop : Nat → Nat → Nat → Heap → Heap
  | 0, _, _, h => h
  | fuel + 1, dest, src, h =>
    if h.mem src = 0 then h.store8 dest (h.mem src)
    else strcpyLoop fuel (dest + 1) (src + 1) (h.store8 dest (h.mem src))

/-- Modelled from the spec: strcpy (lib/string.c, not under src/), "copy a
string into the destination": bytes are copied up to and including the
terminating NUL; the result is the destination. -/
def strcpy (dst src : Nat) (h : Heap) : Val × Heap :=
  (Val.ptr dst, strcpyLoop ADDR_SPACE dst src h)

/-- Loop of memcmp: difference of the first pair of differing bytes. -/
def memcmpLoop (m : Nat → Nat) : Nat → Nat → Nat → Int
  | 0, _, _ => 0
  | n + 1, su1, su2 =>
    if (m su1 : Int) - (m su2 : Int) ≠ 0 then (m su1 : Int) - (m su2 : Int)
    else memcmpLoop m n (su1 + 1) (su2 + 1)

/-- Modelled from the spec: memcmp (lib/string.c, not under src/), "compare
N bytes against a reference buffer"; memory is only read. -/
def memcmp (cs ct count : Nat) (h : Heap) : Val × Heap :=
  (Val.int (memcmpLoop h.mem (toULong count) cs ct), h)

/-! ## The wrappers (lines 45-276) -/

/-- Lines 47-55: only the trace call; the statement expression is void. -/
def PM_STORE (pm_dst bytes : Nat) (site : Site) (s : State) : Val × State :=
  (Val.void,
    PM_TRACE "%s:%p:%lu:%s:%d\n"
      [Arg.str PM_WRT_MARKER, Arg.ptr pm_dst, Arg.ulong (toULong bytes),
       Arg.str site.file, Arg.int site.line] s)

/-- Lines 57-67: trace call, then the expression `pm_dst;`. -/
def PM_WRITE (pm_dst : Field) (site : Site) (s : State) : Val × State :=
  let s1 := PM_TRACE "%s:%p:%lu:%s:%d\n"
      [Arg.str PM_WRT_MARKER, Arg.ptr pm_dst.addr, Arg.ulong pm_dst.width,
       Arg.str site.file, Arg.int site.line] s
  (Val.word (load s1.heap.mem pm_dst.addr pm_dst.width), s1)

/-- Lines 69-78: trace call, then `pm_dst = y;`. -/
def PM_EQU (pm_dst : Field) (y : Nat) (site : Site) (s : State) : Val × State :=
  let s1 := PM_TRACE "%s:%p:%lu:%s:%d\n"
      [Arg.str PM_WRT_MARKER, Arg.ptr pm_dst.addr, Arg.ulong pm_dst.width,
       Arg.str site.file, Arg.int site.line] s
  s1.onHeap (assign pm_dst y)

/-- Lines 80-89: trace call, then `pm_dst |= y;`. -/
def PM_OR_EQU (pm_dst : Field) (y : Nat) (site : Site) (s : State) : Val × State :=
  let s1 := PM_TRACE "%s:%p:%lu:%s:%d\n"
      [Arg.str PM_WRT_MARKER, Arg.ptr pm_dst.addr, Arg.ulong pm_dst.width,
       Arg.str site.file, Arg.int site.line] s
  s1.onHeap (assign pm_dst (load s1.heap.mem pm_dst.addr pm_dst.width ||| y))

/-- Lines 91-100: trace call, then `pm_dst &= y;`. -/
def PM_AND_EQU (pm_dst : Field) (y : Nat) (site : Site) (s : State) : Val × State :=
  let s1 := PM_TRACE "%s:%p:%lu:%s:%d\n"
      [Arg.str PM_WRT_MARKER, Arg.ptr pm_dst.addr, Arg.ulong pm_dst.width,
       Arg.str site.file, Arg.int site.line] s
  s1.onHeap (assign pm_dst (load s1.heap.mem pm_dst.addr pm_dst.width &&& y))

/-- Lines 102-111: trace call, then `pm_dst += y;`. -/
def PM_ADD_EQU (pm_dst : Field) (y : Nat) (site : Site) (s : State) : Val × State :=
  let s1 := PM_TRACE "%s:%p:%lu:%s:%d\n"
      [Arg.str PM_WRT_MARKER, Arg.ptr pm_dst.addr, Arg.ulong pm_dst.width,
       Arg.str site.file, Arg.int site.line] s
  s1.onHeap (assign pm_dst (load s1.heap.mem pm_dst.addr pm_dst.width + y))

/-- Lines 113-122: trace call, then `pm_dst -= y;` (the difference is
reduced modulo the width of the field before it is stored). -/
def PM_SUB_EQU (pm_dst : Field) (y : Nat) (site : Site) (s : State) : Val × State :=
  let s1 := PM_TRACE "%s:%p:%lu:%s:%d\n"
      [Arg.str PM_WRT_MARKER, Arg.ptr pm_dst.addr, Arg.ulong pm_dst.width,
       Arg.str site.file, Arg.int site.line] s
  s1.onHeap (assign pm_dst
    ((((load s1.heap.mem pm_dst.addr pm_dst.width : Nat) : Int) - (y : Int))
      % (2 : Int) ^ (8 * pm_dst.width)).toNat)

/-- Lines 125-134: trace call, then `memset(pm_dst, val, sz);`. -/
def PM_MEMSET (pm_dst val sz : Nat) (site : Site) (s : State) : Val × State :=
  let s1 := PM_TRACE "%s:%p:%lu:%s:%d\n"
      [Arg.str PM_WRT_MARKER, Arg.ptr pm_dst, Arg.ulong (toULong sz),
       Arg.str site.file, Arg.int site.line] s
  s1.onHeap (memset pm_dst val sz)

/-- Lines 136-145: trace call, then `memcpy(pm_dst, src, sz);`. -/
def PM_MEMCPY (pm_dst src sz : Nat) (site : Site) (s : State) : Val × State :=
  let s1 := PM_TRACE "%s:%p:%lu:%s:%d\n"
      [Arg.str PM_WRT_MARKER, Arg.ptr pm_dst, Arg.ulong (toULong sz),
       Arg.str site.file, Arg.int site.line] s
  s1.onHeap (memcpy pm_dst src sz)

/-- Lines 147-157: trace call with `min((int)PMFS_NAME_LEN, (int)strlen(src))`
read by `%u`, then `strcpy(pm_dst, src);`. The constant `PMFS_NAME_LEN` is
defined outside this header and is a parameter. -/
def PM_STRCPY (PMFS_NAME_LEN : Nat) (pm_dst src : Nat) (site : Site) (s : State) :
    Val × State :=
  let s1 := PM_TRACE "%s:%p:%u:%s:%d\n"
      [Arg.str PM_WRT_MARKER, Arg.ptr pm_dst,
       Arg.uint (intToUInt (min (toInt PMFS_NAME_LEN) (toInt (strlen s.heap.mem src)))),
       Arg.str site.file, Arg.int site.line] s
  s1.onHeap (strcpy pm_dst src)

/-- Lines 159-170: trace call (copied before count), then `0;`. -/
def PM_MOVNTI (pm_dst count copied : Nat) (site : Site) (s : State) : Val × State :=
  let s1 := PM_TRACE "%s:%p:%lu:%lu:%s:%d\n"
      [Arg.str PM_NTI, Arg.ptr pm_dst, Arg.ulong (toULong copied),
       Arg.ulong (toULong count), Arg.str site.file, Arg.int site.line] s
  (Val.int 0, s1)

/-- Lines 174-183: trace call, then the value `(pm_src);`. -/
def PM_READ (pm_src : Field) (site : Site) (s : State) : Val × State :=
  let s1 := PM_TRACE "%s:%p:%lu:%s:%d\n"
      [Arg.str PM_RD_MARKER, Arg.ptr pm_src.addr, Arg.ulong pm_src.width,
       Arg.str site.file, Arg.int site.line] s
  (Val.word (load s1.heap.mem pm_src.addr pm_src.width), s1)

/-- Lines 186-195: trace call, then the address `&(pm_src);`. -/
def PM_READ_P (pm_src : Field) (site : Site) (s : State) : Val × State :=
  let s1 := PM_TRACE "%s:%p:%lu:%s:%d\n"
      [Arg.str PM_RD_MARKER, Arg.ptr pm_src.addr, Arg.ulong pm_src.width,
       Arg.str site.file, Arg.int site.line] s
  (Val.ptr pm_src.addr, s1)

/-- Lines 198-213: two trace calls (read, then write), then `&(pm_src);`. -/
def PM_RD_WR_P (pm_src : Field) (site : Site) (s : State) : Val × State :=
  let s1 := PM_TRACE "%s:%p:%lu:%s:%d\n"
      [Arg.str PM_RD_MARKER, Arg.ptr pm_src.addr, Arg.ulong pm_src.width,
       Arg.str site.file, Arg.int site.line] s
  let s2 := PM_TRACE "%s:%p:%lu:%s:%d\n"
      [Arg.str PM_WRT_MARKER, Arg.ptr pm_src.addr, Arg.ulong pm_src.width,
       Arg.str site.file, Arg.int site.line] s1
  (Val.ptr pm_src.addr, s2)

/-- Lines 216-225: trace call, then `memcmp(pm_dst, src, sz);`. -/
def PM_MEMCMP (pm_dst src sz : Nat) (site : Site) (s : State) : Val × State :=
  let s1 := PM_TRACE "%s:%p:%lu:%s:%d\n"
      [Arg.str PM_RD_MARKER, Arg.ptr pm_dst, Arg.ulong (toULong sz),
       Arg.str site.file, Arg.int site.line] s
  s1.onHeap (memcmp pm_dst src sz)

/-- Line 228: `({;})`. -/
def start_epoch (s : State) : Val × State := (Val.void, s)

/-- Line 229: `({;})`. -/
def end_epoch (s : State) : Val × State := (Val.void, s)

/-- Lines 231-237. -/
def start_txn (site : Site) (s : State) : Val × State :=
  (Val.void,
    PM_TRACE "%s:%s:%d\n" [Arg.str PM_TX_START, Arg.str site.file, Arg.int site.line] s)

/-- Lines 239-245. -/
def end_txn (site : Site) (s : State) : Val × State :=
  (Val.void,
    PM_TRACE "%s:%s:%d\n" [Arg.str PM_TX_END, Arg.str site.file, Arg.int site.line] s)

/-- Lines 251-261: trace call with `done` before `count`, both read by `%u`. -/
def PM_FLUSH (pm_dst count done : Nat) (site : Site) (s : State) : Val × State :=
  (Val.void,
    PM_TRACE "%s:%p:%u:%u:%s:%d\n"
      [Arg.str PM_FLUSH_MARKER, Arg.ptr pm_dst, Arg.uint (toUInt done),
       Arg.uint (toUInt count), Arg.str site.file, Arg.int site.line] s)

/-- Lines 262-266. -/
def PM_COMMIT (site : Site) (s : State) : Val × State :=
  (Val.void,
    PM_TRACE "%s:%s:%d\n" [Arg.str PM_COMMIT_MARKER, Arg.str site.file, Arg.int site.line] s)

/-- Lines 267-271. -/
def PM_BARRIER (site : Site) (s : State) : Val × State :=
  (Val.void,
    PM_TRACE "%s:%s:%d\n" [Arg.str PM_BARRIER_MARKER, Arg.str site.file, Arg.int site.line] s)

/-- Lines 272-276. -/
def PM_FENCE (site : Site) (s : State) : Val × State :=
  (Val.void,
    PM_TRACE "%s:%s:%d\n" [Arg.str PM_FENCE_MARKER, Arg.str site.file, Arg.int site.line] s)

/-! ## Calls and runs -/

/-- A use of one of the wrappers, with its actual arguments. -/
inductive Call where
  | PM_STORE (pm_dst bytes : Nat)
  | PM_WRITE (pm_dst : Field)
  | PM_EQU (pm_dst : Field) (y : Nat)
  | PM_OR_EQU (pm_dst : Field) (y : Nat)
  | PM_AND_EQU (pm_dst : Field) (y : Nat)
  | PM_ADD_EQU (pm_dst : Field) (y : Nat)
  | PM_SUB_EQU (pm_dst : Field) (y : Nat)
  | PM_MEMSET (pm_dst val sz : Nat)
  | PM_MEMCPY (pm_dst src sz : Nat)
  | PM_STRCPY (pm_dst src : Nat)
  | PM_MOVNTI (pm_dst count copied : Nat)
  | PM_READ (pm_src : Field)
  | PM_READ_P (pm_src : Field)
  | PM_RD_WR_P (pm_src : Field)
  | PM_MEMCMP (pm_dst src sz : Nat)
  | start_epoch
  | end_epoch
  | start_txn
  | end_txn
  | PM_FLUSH (pm_dst count done : Nat)
  | PM_COMMIT
  | PM_BARRIER
  | PM_FENCE
  deriving DecidableEq

/-- Expansion of a call at a call site. -/
def exec (PMFS_NAME_LEN : Nat) (c : Call) (site : Site) (s : State) : Val × State :=
  match c with
  | Call.PM_STORE pm_dst bytes => PM_STORE pm_dst bytes site s
  | Call.PM_WRITE pm_dst => PM_WRITE pm_dst site s
  | Call.PM_EQU pm_dst y => PM_EQU pm_dst y site s
  | Call.PM_OR_EQU pm_dst y => PM_OR_EQU pm_dst y site s
  | Call.PM_AND_EQU pm_dst y => PM_AND_EQU pm_dst y site s
  | Call.PM_ADD_EQU pm_dst y => PM_ADD_EQU pm_dst y site s
  | Call.PM_SUB_EQU pm_dst y => PM_SUB_EQU pm_dst y site s
  | Call.PM_MEMSET pm_dst val sz => PM_MEMSET pm_dst val sz site s
  | Call.PM_MEMCPY pm_dst src sz => PM_MEMCPY pm_dst src sz site s
  | Call.PM_STRCPY pm_dst src => PM_STRCPY PMFS_NAME_LEN pm_dst src site s
  | Call.PM_MOVNTI pm_dst count copied => PM_MOVNTI pm_dst count copied site s
  | Call.PM_READ pm_src => PM_READ pm_src site s
  | Call.PM_READ_P pm_src => PM_READ_P pm_src site s
  | Call.PM_RD_WR_P pm_src => PM_RD_WR_P pm_src site s
  | Call.PM_MEMCMP pm_dst src sz => PM_MEMCMP pm_dst src sz site s
  | Call.start_epoch => start_epoch s
  | Call.end_epoch => end_epoch s
  | Call.start_txn => start_txn site s
  | Call.end_txn => end_txn site s
  | Call.PM_FLUSH pm_dst count done => PM_FLUSH pm_dst count done site s
  | Call.PM_COMMIT => PM_COMMIT site s
  | Call.PM_BARRIER => PM_BARRIER site s
  | Call.PM_FENCE => PM_FENCE site s

/-- A straight-line sequence of wrapper calls, each at its call site. -/
def run (PMFS_NAME_LEN : Nat) : List (Call × Site) → State → State
  | [], s => s
  | (c, site) :: rest, s => run PMFS_NAME_LEN rest (exec PMFS_NAME_LEN c site s).2

/-- The calls other than the two empty epoch delimiters, that is, the
wrappers that have a trace marker. -/
def Call.traced : Call → Bool
  | Call.start_epoch => false
  | Call.end_epoch => false
  | _ => true

/-! ## Events: the reading of a trace line -/

/-- The nine kinds of event. -/
inductive Kind where
  | WRITE | READ | NONTEMPORAL_WRITE | FLUSH | FENCE | BARRIER | COMMIT | TX_START | TX_END
  deriving DecidableEq

/-- Event record: the fields a trace line carries. -/
structure Event where
  kind : Kind
  address : Option Nat
  primary_size : Option Nat
  secondary_size : Option Nat
  origin : String × Int
  deriving DecidableEq

/-- Kind named by a marker string. -/
def kindOfMarker (m : String) : Option Kind :=
  if m = PM_WRT_MARKER then some Kind.WRITE
  else if m = PM_RD_MARKER then some Kind.READ
  else if m = PM_NTI then some Kind.NONTEMPORAL_WRITE
  else if m = PM_FLUSH_MARKER then some Kind.FLUSH
  else if m = PM_FENCE_MARKER then some Kind.FENCE
  else if m = PM_BARRIER_MARKER then some Kind.BARRIER
  else if m = PM_COMMIT_MARKER then some Kind.COMMIT
  else if m = PM_TX_START then some Kind.TX_START
  else if m = PM_TX_END then some Kind.TX_END
  else none

/-- Value of an unsigned size argument (`%lu` or `%u`). -/
def Arg.unsignedVal : Arg → Option Nat
  | Arg.ulong n => some n
  | Arg.uint n => some n
  | _ => none

/-- Reading of a trace line as an event. A line with one size carries the
primary size; a line with two sizes carries the completed count first and
the requested count second (comment of lines 247-250), that is secondary
size, then primary size; a line without pointer carries neither address nor
size. -/
def TraceLine.toEvent (l : TraceLine) : Option Event :=
  match l.args with
  | [Arg.str m, Arg.ptr a, sz, Arg.str f, Arg.int n] =>
    match kindOfMarker m, sz.unsignedVal with
    | some k, some p => some (Event.mk k (some a) (some p) none (f, n))
    | _, _ => none
  | [Arg.str m, Arg.ptr a, done, count, Arg.str f, Arg.int n] =>
    match kindOfMarker m, done.unsignedVal, count.unsignedVal with
    | some k, some d, some c => some (Event.mk k (some a) (some c) (some d) (f, n))
    | _, _, _ => none
  | [Arg.str m, Arg.str f, Arg.int n] =>
    match kindOfMarker m with
    | some k => some (Event.mk k none none none (f, n))
    | none => none
  | _ => none

/-- Trace lines a call appends when started from an empty buffer. -/
def emitted (PMFS_NAME_LEN : Nat) (c : Call) (site : Site) (s : State) : List TraceLine :=
  (exec PMFS_NAME_LEN c site { s with log := [] }).2.log

/-- Trace lines of a run, call by call, in call order. -/
def emittedRun (PMFS_NAME_LEN : Nat) : List (Call × Site) → State → List TraceLine
  | [], _ => []
  | (c, site) :: rest, s =>
    emitted PMFS_NAME_LEN c site s ++ emittedRun PMFS_NAME_LEN rest (exec PMFS_NAME_LEN c site s).2

/-- Kinds the wrapper table (section 4.4 of the specification) documents for
a call, in emission order; the two epoch delimiters are not in the table. -/
def Call.documentedKinds : Call → List Kind
  | Call.PM_STORE _ _ => [Kind.WRITE]
  | Call.PM_WRITE _ => [Kind.WRITE]
  | Call.PM_EQU _ _ => [Kind.WRITE]
  | Call.PM_OR_EQU _ _ => [Kind.WRITE]
  | Call.PM_AND_EQU _ _ => [Kind.WRITE]
  | Call.PM_ADD_EQU _ _ => [Kind.WRITE]
  | Call.PM_SUB_EQU _ _ => [Kind.WRITE]
  | Call.PM_MEMSET _ _ _ => [Kind.WRITE]
  | Call.PM_MEMCPY _ _ _ => [Kind.WRITE]
  | Call.PM_STRCPY _ _ => [Kind.WRITE]
  | Call.PM_MOVNTI _ _ _ => [Kind.NONTEMPORAL_WRITE]
  | Call.PM_READ _ => [Kind.READ]
  | Call.PM_READ_P _ => [Kind.READ]
  | Call.PM_RD_WR_P _ => [Kind.READ, Kind.WRITE]
  | Call.PM_MEMCMP _ _ _ => [Kind.READ]
  | Call.start_epoch => []
  | Call.end_epoch => []
  | Call.start_txn => [Kind.TX_START]
  | Call.end_txn => [Kind.TX_END]
  | Call.PM_FLUSH _ _ _ => [Kind.FLUSH]
  | Call.PM_COMMIT => [Kind.COMMIT]
  | Call.PM_BARRIER => [Kind.BARRIER]
  | Call.PM_FENCE => [Kind.FENCE]

/-! ## Sample data -/

/-- Sample memory: the string "ab" at address 100, zero elsewhere. -/
def sampleMem : Nat → Nat := fun a => if a = 100 then 97 else if a = 101 then 98 else 0

/-- Sample memory with an empty store history. -/
def sampleHeap : Heap := Heap.mk sampleMem []

/-- Sample state with tracing enabled and an empty trace buffer. -/
def stateOn : State := State.mk 1 sampleHeap []

/-- Sample state with tracing disabled and an empty trace buffer. -/
def stateOff : State := State.mk 0 sampleHeap []

/-- Sample call site. -/
def site0 : Site := Site.mk "fs/pmfs/inode.c" 120

/-- Value of `PMFS_NAME_LEN` in the PMFS headers. -/
def nameLen : Nat := 255

/-- Sample 4-byte field at address 4096. -/
def fieldX : Field := Field.mk 4096 4

/-- Sample call sequence touching every group of wrappers. -/
def sampleCalls : List (Call × Site) :=
  [(Call.start_txn, site0), (Call.PM_EQU fieldX 7, site0), (Call.PM_MEMCPY 200 100 3, site0),
   (Call.PM_STRCPY 300 100, site0), (Call.PM_RD_WR_P fieldX, site0),
   (Call.PM_FLUSH 4096 4 4, site0), (Call.PM_COMMIT, site0), (Call.end_txn, site0)]

/-! ## Post-conditions and footprints -/

/-- Post-condition shared by the five assignment wrappers: the field holds
`v`, the value of the expression is `v`, bytes outside the field are as
before, and the trace buffer gains nothing when the mask is 0 and exactly
one WRITE line with the address and width of the field otherwise. -/
def AssignPost (f : Field) (site : Site) (s : State) (r : Val × State) (v : Nat) : Prop :=
  load r.2.heap.mem f.addr f.width = v ∧
    r.1 = Val.word v ∧
    (∀ a, a < f.addr ∨ f.addr + f.width ≤ a → r.2.heap.mem a = s.heap.mem a) ∧
    (s.pmfs_tracemask = 0 → r.2.log = s.log) ∧
    (s.pmfs_tracemask ≠ 0 → ∃ l : TraceLine, r.2.log = s.log ++ [l] ∧
      l.toEvent = some (Event.mk Kind.WRITE (some f.addr) (some f.width) none
        (site.file, site.line)))

/-- Addresses stored to by a call: the part of the store history it adds. -/
def footprint (PMFS_NAME_LEN : Nat) (c : Call) (site : Site) (s : State) : List Nat :=
  (exec PMFS_NAME_LEN c site s).2.heap.written.drop s.heap.written.length

/-- The wrappers that perform a store: the assignments and the bulk writes. -/
def Call.isWriteWrapper : Call → Bool
  | Call.PM_EQU _ _ => true
  | Call.PM_OR_EQU _ _ => true
  | Call.PM_AND_EQU _ _ => true
  | Call.PM_ADD_EQU _ _ => true
  | Call.PM_SUB_EQU _ _ => true
  | Call.PM_MEMSET _ _ _ => true
  | Call.PM_MEMCPY _ _ _ => true
  | Call.PM_STRCPY _ _ => true
  | _ => false

/-- The extent invariant for one call: every WRITE line the call emits
carries an address `a` and a primary size `n` such that the bytes the call
stores to are exactly those of `[a, a + n)`. -/
def ExtentExact (PMFS_NAME_LEN : Nat) (c : Call) (site : Site) (s : State) : Prop :=
  ∀ l ∈ emitted PMFS_NAME_LEN c site s, ∀ e : Event, l.toEvent = some e →
    e.kind = Kind.WRITE →
    ∃ a n, e.address = some a ∧ e.primary_size = some n ∧
      ∀ x, x ∈ footprint PMFS_NAME_LEN c site s ↔ (a ≤ x ∧ x < a + n)

/-! ## Text of a trace line -/

/-- Character of a digit value (lower-case hexadecimal digits). -/
def digitChar : Nat → Char
  | 0 => '0' | 1 => '1' | 2 => '2' | 3 => '3' | 4 => '4' | 5 => '5' | 6 => '6' | 7 => '7'
  | 8 => '8' | 9 => '9' | 10 => 'a' | 11 => 'b' | 12 => 'c' | 13 => 'd' | 14 => 'e'
  | _ => 'f'

/-- Digit value of a digit character. -/
def charDigit (c : Char) : Nat :=
  if c = '0' then 0 else if c = '1' then 1 else if c = '2' then 2 else if c = '3' then 3
  else if c = '4' then 4 else if c = '5' then 5 else if c = '6' then 6 else if c = '7' then 7
  else if c = '8' then 8 else if c = '9' then 9 else if c = 'a' then 10
  else if c = 'b' then 11 else if c = 'c' then 12 else if c = 'd' then 13
  else if c = 'e' then 14 else 15

/-- Digits of `n` in the given base, most significant first; zero prints as
a single `0`. -/
def renderNat (base n : Nat) : List Char :=
  if n = 0 then ['0'] else (Nat.digits base n).reverse.map digitChar

/-- Conversion `%p`: hexadecimal digits, zero-padded to 16 characters. -/
def renderPtr (a : Nat) : List Char :=
  List.replicate (16 - (renderNat 16 a).length) '0' ++ renderNat 16 a

/-- Conversion `%d`: sign and decimal digits. -/
def renderInt (i : Int) : List Char :=
  if i < 0 then '-' :: renderNat 10 i.natAbs else renderNat 10 i.toNat

/-- Modelled from the spec: vsnprintf (lib/vsprintf.c, not under src/), the
"textual encoding" of a record: the format string is copied and each
conversion `%s`, `%p`, `%lu`, `%u`, `%d` is replaced by the text of the next
argument. -/
def vsnprintf : List Char → List Arg → List Char
  | [], _ => []
  | '%' :: 's' :: fmt, Arg.str s :: args => s.data ++ vsnprintf fmt args
  | '%' :: 'p' :: fmt, Arg.ptr a :: args => renderPtr a ++ vsnprintf fmt args
  | '%' :: 'l' :: 'u' :: fmt, Arg.ulong n :: args => renderNat 10 n ++ vsnprintf fmt args
  | '%' :: 'u' :: fmt, Arg.uint n :: args => renderNat 10 n ++ vsnprintf fmt args
  | '%' :: 'd' :: fmt, Arg.int i :: args => renderInt i ++ vsnprintf fmt args
  | c :: fmt, args => c :: vsnprintf fmt args

/-- Text of a trace line as it appears in the trace buffer. -/
def TraceLine.text (l : TraceLine) : String :=
  String.mk (vsnprintf l.fmt.data l.args)

/-- Sample memory holding a string of 300 characters `a` at address 1000. -/
def longMem : Nat → Nat := fun a => if 1000 ≤ a ∧ a < 1300 then 97 else 0

/-- Sample state with tracing enabled whose memory is `longMem`. -/
def longState : State := State.mk 1 (Heap.mk longMem []) []

/-- Marker string of a kind (lines 26-43). -/
def Kind.marker : Kind → String
  | Kind.WRITE => PM_WRT_MARKER
  | Kind.READ => PM_RD_MARKER
  | Kind.NONTEMPORAL_WRITE => PM_NTI
  | Kind.FLUSH => PM_FLUSH_MARKER
  | Kind.FENCE => PM_FENCE_MARKER
  | Kind.BARRIER => PM_BARRIER_MARKER
  | Kind.COMMIT => PM_COMMIT_MARKER
  | Kind.TX_START => PM_TX_START
  | Kind.TX_END => PM_TX_END

/-- The nine marker strings. -/
def markers : List String :=
  [PM_WRT_MARKER, PM_RD_MARKER, PM_NTI, PM_FLUSH_MARKER, PM_TX_START, PM_FENCE_MARKER,
   PM_COMMIT_MARKER, PM_BARRIER_MARKER, PM_TX_END]

/-- The fields the wrappers record for each kind: address and primary size
for WRITE and READ, address and both sizes for NONTEMPORAL_WRITE and FLUSH,
no address and no size for the boundary kinds; the origin line is the value
of `__LINE__`, not negative. -/
def Event.wellFormed (e : Event) : Bool :=
  (match e.kind with
    | Kind.WRITE => e.address.isSome && e.primary_size.isSome && e.secondary_size.isNone
    | Kind.READ => e.address.isSome && e.primary_size.isSome && e.secondary_size.isNone
    | Kind.NONTEMPORAL_WRITE =>
      e.address.isSome && e.primary_size.isSome && e.secondary_size.isSome
    | Kind.FLUSH => e.address.isSome && e.primary_size.isSome && e.secondary_size.isSome
    | _ => e.address.isNone && e.primary_size.isNone && e.secondary_size.isNone)
    && decide (0 ≤ e.origin.2)

/-- The `:`-delimited text the format strings of the wrappers produce for an
event: marker, then address and sizes when present (completed count before
requested count), then origin file and origin line, then a newline. -/
def Event.encode (e : Event) : List Char :=
  e.kind.marker.data ++ ':' ::
    (match e.address, e.secondary_size, e.primary_size with
      | some a, none, some p =>
        renderPtr a ++ ':' :: (renderNat 10 p ++ ':' ::
          (e.origin.1.data ++ ':' :: (renderInt e.origin.2 ++ ['\n'])))
      | some a, some d, some p =>
        renderPtr a ++ ':' :: (renderNat 10 d ++ ':' :: (renderNat 10 p ++ ':' ::
          (e.origin.1.data ++ ':' :: (renderInt e.origin.2 ++ ['\n']))))
      | _, _, _ => e.origin.1.data ++ ':' :: (renderInt e.origin.2 ++ ['\n']))

/-- Number denoted by a list of digit characters, most significant first. -/
def readNat (base : Nat) (cs : List Char) : Nat :=
  Nat.ofDigits base (cs.reverse.map charDigit)

/-- Sample call site whose file name contains the delimiter. -/
def siteColon : Site := Site.mk "fs/pmfs:2/dir.c" 7

/-- Bytes the wrapped operation of a call accesses in memory `m`: the field
of the scalar wrappers, the destination (and source) range of the bulk
wrappers, and for PM_STRCPY the destination and source strings with their
terminator. -/
def Call.accessed (c : Call) (m : Nat → Nat) (x : Nat) : Prop :=
  match c with
  | Call.PM_STORE d bytes => d ≤ x ∧ x < d + bytes
  | Call.PM_WRITE f => f.addr ≤ x ∧ x < f.addr + f.width
  | Call.PM_EQU f _ => f.addr ≤ x ∧ x < f.addr + f.width
  | Call.PM_OR_EQU f _ => f.addr ≤ x ∧ x < f.addr + f.width
  | Call.PM_AND_EQU f _ => f.addr ≤ x ∧ x < f.addr + f.width
  | Call.PM_ADD_EQU f _ => f.addr ≤ x ∧ x < f.addr + f.width
  | Call.PM_SUB_EQU f _ => f.addr ≤ x ∧ x < f.addr + f.width
  | Call.PM_MEMSET d _ sz => d ≤ x ∧ x < d + sz
  | Call.PM_MEMCPY d src sz => (d ≤ x ∧ x < d + sz) ∨ (src ≤ x ∧ x < src + sz)
  | Call.PM_STRCPY d src =>
    (d ≤ x ∧ x ≤ d + strlen m src) ∨ (src ≤ x ∧ x ≤ src + strlen m src)
  | Call.PM_MOVNTI d count _ => d ≤ x ∧ x < d + count
  | Call.PM_READ f => f.addr ≤ x ∧ x < f.addr + f.width
  | Call.PM_READ_P f => f.addr ≤ x ∧ x < f.addr + f.width
  | Call.PM_RD_WR_P f => f.addr ≤ x ∧ x < f.addr + f.width
  | Call.PM_MEMCMP d src sz => (d ≤ x ∧ x < d + sz) ∨ (src ≤ x ∧ x < src + sz)
  | Call.PM_FLUSH d count _ => d ≤ x ∧ x < d + count
  | _ => False

/-- The events of a call do not depend on the contents of the bytes it
accesses: two states with the same trace mask that agree on every byte the
call does not access give the same trace lines. -/
def EventsIgnoreContents (PMFS_NAME_LEN : Nat) (c : Call) (site : Site) : Prop :=
  ∀ s1 s2 : State, s1.pmfs_tracemask = s2.pmfs_tracemask →
    (∀ a, ¬ c.accessed s1.heap.mem a → s1.heap.mem a = s2.heap.mem a) →
    emitted PMFS_NAME_LEN c site s1 = emitted PMFS_NAME_LEN c site s2

/-- Sample state whose memory holds the string "abc" at address 100: the
memory of `stateOn` with the byte at 102 changed. -/
def stateAbc : State :=
  State.mk 1 (Heap.mk (fun a => if a = 102 then 99 else sampleMem a) []) []

/-- The wrappers that only mark or read. -/
def Call.marksOrReads : Call → Bool
  | Call.PM_STORE _ _ => true
  | Call.PM_WRITE _ => true
  | Call.PM_MOVNTI _ _ _ => true
  | Call.PM_FLUSH _ _ _ => true
  | Call.PM_COMMIT => true
  | Call.PM_BARRIER => true
  | Call.PM_FENCE => true
  | Call.start_txn => true
  | Call.end_txn => true
  | Call.start_epoch => true
  | Call.end_epoch => true
  | Call.PM_READ _ => true
  | Call.PM_READ_P _ => true
  | Call.PM_RD_WR_P _ => true
  | Call.PM_MEMCMP _ _ _ => true
  | _ => false

/-! ## Basic facts about the trace guard -/

theorem PM_TRACE_heap (fmt : String) (args : List Arg) (s : State) :
    (PM_TRACE fmt args s).heap = s.heap := by
  unfold PM_TRACE pmfs_trace_printk trace_printk
  split <;> rfl

theorem PM_TRACE_mask (fmt : String) (args : List Arg) (s : State) :
    (PM_TRACE fmt args s).pmfs_tracemask = s.pmfs_tracemask := by
  unfold PM_TRACE pmfs_trace_printk trace_printk
  split <;> rfl

theorem PM_TRACE_log_off (fmt : String) (args : List Arg) (s : State)
    (h : s.pmfs_tracemask = 0) : (PM_TRACE fmt args s).log = s.log := by
  simp [PM_TRACE, pmfs_trace_printk, h]

theorem PM_TRACE_log_on (fmt : String) (args : List Arg) (s : State)
    (h : s.pmfs_tracemask ≠ 0) :
    (PM_TRACE fmt args s).log = s.log ++ [TraceLine.mk fmt args] := by
  simp [PM_TRACE, pmfs_trace_printk, trace_printk, h]

theorem exec_mask (cap : Nat) (c : Call) (site : Site) (s : State) :
    (exec cap c site s).2.pmfs_tracemask = s.pmfs_tracemask := by
  cases c <;>
    simp [exec, PM_STORE, PM_WRITE, PM_EQU, PM_OR_EQU, PM_AND_EQU, PM_ADD_EQU, PM_SUB_EQU,
      PM_MEMSET, PM_MEMCPY, PM_STRCPY, PM_MOVNTI, PM_READ, PM_READ_P, PM_RD_WR_P, PM_MEMCMP,
      start_epoch, end_epoch, start_txn, end_txn, PM_FLUSH, PM_COMMIT, PM_BARRIER, PM_FENCE,
      State.onHeap, PM_TRACE_mask]

theorem exec_log_off (cap : Nat) (c : Call) (site : Site) (s : State)
    (h : s.pmfs_tracemask = 0) : (exec cap c site s).2.log = s.log := by
  cases c <;>
    simp [exec, PM_STORE, PM_WRITE, PM_EQU, PM_OR_EQU, PM_AND_EQU, PM_ADD_EQU, PM_SUB_EQU,
      PM_MEMSET, PM_MEMCPY, PM_STRCPY, PM_MOVNTI, PM_READ, PM_READ_P, PM_RD_WR_P, PM_MEMCMP,
      start_epoch, end_epoch, start_txn, end_txn, PM_FLUSH, PM_COMMIT, PM_BARRIER, PM_FENCE,
      State.onHeap, PM_TRACE_log_off, PM_TRACE_mask, h]

theorem run_log_off (cap : Nat) (cs : List (Call × Site)) :
    ∀ s : State, s.pmfs_tracemask = 0 → (run cap cs s).log = s.log := by
  induction cs with
  | nil => intro s _; rfl
  | cons x rest ih =>
    intro s h
    obtain ⟨c, site⟩ := x
    have hm : (exec cap c site s).2.pmfs_tracemask = 0 := by rw [exec_mask]; exact h
    simp only [run]
    rw [ih _ hm, exec_log_off cap c site s h]

theorem emittedRun_off (cap : Nat) (cs : List (Call × Site)) :
    ∀ s : State, s.pmfs_tracemask = 0 → emittedRun cap cs s = [] := by
  induction cs with
  | nil => intro s _; rfl
  | cons x rest ih =>
    intro s h
    obtain ⟨c, site⟩ := x
    have hm : (exec cap c site s).2.pmfs_tracemask = 0 := by rw [exec_mask]; exact h
    have he : emitted cap c site s = [] := by
      unfold emitted
      rw [exec_log_off cap c site _ (by simpa using h)]
    simp only [emittedRun]
    rw [ih _ hm, he]
    rfl

/-! ## C1 -/

/-- C1: for every finite sequence of wrapper calls run with
`pmfs_tracemask = 0`, the trace buffer after the run is the trace buffer
before it, and the list of trace lines emitted by the calls is empty. -/
theorem C1_disabled_run_emits_nothing (cap : Nat) (cs : List (Call × Site)) (s : State)
    (h : s.pmfs_tracemask = 0) :
    (run cap cs s).log = s.log ∧ emittedRun cap cs s = [] :=
  ⟨run_log_off cap cs s h, emittedRun_off cap cs s h⟩

/-- Instance of C1 on the sample sequence, started with tracing disabled. -/
theorem C1_disabled_run_emits_nothing_witness :
    stateOff.pmfs_tracemask = 0 ∧
      ((run nameLen sampleCalls stateOff).log = stateOff.log ∧
        emittedRun nameLen sampleCalls stateOff = []) :=
  ⟨rfl, C1_disabled_run_emits_nothing nameLen sampleCalls stateOff rfl⟩

/-! ## Reading trace lines -/

@[simp] theorem kindOfMarker_wrt : kindOfMarker PM_WRT_MARKER = some Kind.WRITE := by decide
@[simp] theorem kindOfMarker_rd : kindOfMarker PM_RD_MARKER = some Kind.READ := by decide
@[simp] theorem kindOfMarker_nti : kindOfMarker PM_NTI = some Kind.NONTEMPORAL_WRITE := by
  decide
@[simp] theorem kindOfMarker_flush : kindOfMarker PM_FLUSH_MARKER = some Kind.FLUSH := by decide
@[simp] theorem kindOfMarker_fence : kindOfMarker PM_FENCE_MARKER = some Kind.FENCE := by decide
@[simp] theorem kindOfMarker_barrier : kindOfMarker PM_BARRIER_MARKER = some Kind.BARRIER := by
  decide
@[simp] theorem kindOfMarker_commit : kindOfMarker PM_COMMIT_MARKER = some Kind.COMMIT := by
  decide
@[simp] theorem kindOfMarker_tx_start : kindOfMarker PM_TX_START = some Kind.TX_START := by
  decide
@[simp] theorem kindOfMarker_tx_end : kindOfMarker PM_TX_END = some Kind.TX_END := by decide

@[simp] theorem toEvent_ulong (fmt m : String) (a p : Nat) (f : String) (n : Int) :
    (TraceLine.mk fmt [Arg.str m, Arg.ptr a, Arg.ulong p, Arg.str f, Arg.int n]).toEvent
      = (kindOfMarker m).map (fun k => Event.mk k (some a) (some p) none (f, n)) := by
  cases hk : kindOfMarker m <;> simp [TraceLine.toEvent, hk, Arg.unsignedVal]

@[simp] theorem toEvent_uint (fmt m : String) (a p : Nat) (f : String) (n : Int) :
    (TraceLine.mk fmt [Arg.str m, Arg.ptr a, Arg.uint p, Arg.str f, Arg.int n]).toEvent
      = (kindOfMarker m).map (fun k => Event.mk k (some a) (some p) none (f, n)) := by
  cases hk : kindOfMarker m <;> simp [TraceLine.toEvent, hk, Arg.unsignedVal]

@[simp] theorem toEvent_ulong2 (fmt m : String) (a d c : Nat) (f : String) (n : Int) :
    (TraceLine.mk fmt
        [Arg.str m, Arg.ptr a, Arg.ulong d, Arg.ulong c, Arg.str f, Arg.int n]).toEvent
      = (kindOfMarker m).map (fun k => Event.mk k (some a) (some c) (some d) (f, n)) := by
  cases hk : kindOfMarker m <;> simp [TraceLine.toEvent, hk, Arg.unsignedVal]

@[simp] theorem toEvent_uint2 (fmt m : String) (a d c : Nat) (f : String) (n : Int) :
    (TraceLine.mk fmt
        [Arg.str m, Arg.ptr a, Arg.uint d, Arg.uint c, Arg.str f, Arg.int n]).toEvent
      = (kindOfMarker m).map (fun k => Event.mk k (some a) (some c) (some d) (f, n)) := by
  cases hk : kindOfMarker m <;> simp [TraceLine.toEvent, hk, Arg.unsignedVal]

@[simp] theorem toEvent_plain (fmt m f : String) (n : Int) :
    (TraceLine.mk fmt [Arg.str m, Arg.str f, Arg.int n]).toEvent
      = (kindOfMarker m).map (fun k => Event.mk k none none none (f, n)) := by
  cases hk : kindOfMarker m <;> simp [TraceLine.toEvent, hk]

/-! ## Trace lines of one call -/

theorem exec_log (cap : Nat) (c : Call) (site : Site) (s : State) :
    (exec cap c site s).2.log = s.log ++ emitted cap c site s := by
  unfold emitted
  by_cases h : s.pmfs_tracemask = 0
  · rw [exec_log_off cap c site s h, exec_log_off cap c site _ (by simpa using h)]
    simp
  · cases c <;>
      simp [exec, PM_STORE, PM_WRITE, PM_EQU, PM_OR_EQU, PM_AND_EQU, PM_ADD_EQU, PM_SUB_EQU,
        PM_MEMSET, PM_MEMCPY, PM_STRCPY, PM_MOVNTI, PM_READ, PM_READ_P, PM_RD_WR_P, PM_MEMCMP,
        start_epoch, end_epoch, start_txn, end_txn, PM_FLUSH, PM_COMMIT, PM_BARRIER, PM_FENCE,
        State.onHeap, PM_TRACE_log_on, PM_TRACE_mask, h]

/-! ## C2 -/

/-- C2: for every wrapper call, every call site, every state and every value
`m` of the trace mask, the call run with mask `m` and the call run with mask
0 return the same value and leave the same memory (contents and store
history); each run leaves the mask as it found it, so the two final states
differ only in the trace buffer. -/
theorem C2_tracing_transparent (cap : Nat) (c : Call) (site : Site) (s : State) (m : Nat) :
    (exec cap c site { s with pmfs_tracemask := m }).1
        = (exec cap c site { s with pmfs_tracemask := 0 }).1 ∧
      (exec cap c site { s with pmfs_tracemask := m }).2.heap
        = (exec cap c site { s with pmfs_tracemask := 0 }).2.heap ∧
      (exec cap c site { s with pmfs_tracemask := m }).2.pmfs_tracemask = m ∧
      (exec cap c site { s with pmfs_tracemask := 0 }).2.pmfs_tracemask = 0 := by
  refine ⟨?_, ?_, by rw [exec_mask], by rw [exec_mask]⟩ <;>
  cases c <;>
    simp [exec, PM_STORE, PM_WRITE, PM_EQU, PM_OR_EQU, PM_AND_EQU, PM_ADD_EQU, PM_SUB_EQU,
      PM_MEMSET, PM_MEMCPY, PM_STRCPY, PM_MOVNTI, PM_READ, PM_READ_P, PM_RD_WR_P, PM_MEMCMP,
      start_epoch, end_epoch, start_txn, end_txn, PM_FLUSH, PM_COMMIT, PM_BARRIER, PM_FENCE,
      State.onHeap, PM_TRACE_heap]

/-! ## C3 -/

/-- C3: with tracing enabled, every call of a wrapper that has a marker (all
calls but the two empty epoch delimiters) appends to the trace buffer lines
whose kinds are exactly the documented kinds of the call; the line is single
for every wrapper but PM_RD_WR_P, which appends two lines, a READ followed by
a WRITE, both with the address of the field and its width. -/
theorem C3_one_event_per_call (cap : Nat) (c : Call) (site : Site) (s : State)
    (hon : s.pmfs_tracemask ≠ 0) (ht : c.traced = true) :
    ∃ ls : List TraceLine,
      (exec cap c site s).2.log = s.log ++ ls ∧
      ls.map (fun l => l.toEvent.map Event.kind) = c.documentedKinds.map some ∧
      ((∀ f, c ≠ Call.PM_RD_WR_P f) → ls.length = 1) ∧
      (∀ f, c = Call.PM_RD_WR_P f →
        ls.map TraceLine.toEvent =
          [some (Event.mk Kind.READ (some f.addr) (some f.width) none (site.file, site.line)),
           some (Event.mk Kind.WRITE (some f.addr) (some f.width) none
             (site.file, site.line))]) := by
  refine ⟨emitted cap c site s, exec_log cap c site s, ?_, ?_, ?_⟩
  · cases c <;> simp [Call.traced] at ht <;>
      simp [emitted, exec, PM_STORE, PM_WRITE, PM_EQU, PM_OR_EQU, PM_AND_EQU, PM_ADD_EQU,
        PM_SUB_EQU, PM_MEMSET, PM_MEMCPY, PM_STRCPY, PM_MOVNTI, PM_READ, PM_READ_P, PM_RD_WR_P,
        PM_MEMCMP, start_txn, end_txn, PM_FLUSH, PM_COMMIT, PM_BARRIER, PM_FENCE,
        State.onHeap, PM_TRACE_log_on, PM_TRACE_mask, hon, Call.documentedKinds]
  · intro hne
    cases c <;> simp [Call.traced] at ht <;>
      simp [emitted, exec, PM_STORE, PM_WRITE, PM_EQU, PM_OR_EQU, PM_AND_EQU, PM_ADD_EQU,
        PM_SUB_EQU, PM_MEMSET, PM_MEMCPY, PM_STRCPY, PM_MOVNTI, PM_READ, PM_READ_P, PM_RD_WR_P,
        PM_MEMCMP, start_txn, end_txn, PM_FLUSH, PM_COMMIT, PM_BARRIER, PM_FENCE,
        State.onHeap, PM_TRACE_log_on, PM_TRACE_mask, hon]
    exact absurd rfl (hne _)
  · intro f hf
    subst hf
    simp [emitted, exec, PM_RD_WR_P, PM_TRACE_log_on, PM_TRACE_mask, hon]

/-- Instance of C3: PM_RD_WR_P on the sample field with tracing enabled. -/
theorem C3_one_event_per_call_witness :
    stateOn.pmfs_tracemask ≠ 0 ∧ (Call.PM_RD_WR_P fieldX).traced = true ∧
      ∃ ls : List TraceLine,
        (exec nameLen (Call.PM_RD_WR_P fieldX) site0 stateOn).2.log = stateOn.log ++ ls ∧
        ls.map (fun l => l.toEvent.map Event.kind)
          = (Call.PM_RD_WR_P fieldX).documentedKinds.map some ∧
        ((∀ f, Call.PM_RD_WR_P fieldX ≠ Call.PM_RD_WR_P f) → ls.length = 1) ∧
        (∀ f, Call.PM_RD_WR_P fieldX = Call.PM_RD_WR_P f →
          ls.map TraceLine.toEvent =
            [some (Event.mk Kind.READ (some f.addr) (some f.width) none
               (site0.file, site0.line)),
             some (Event.mk Kind.WRITE (some f.addr) (some f.width) none
               (site0.file, site0.line))]) :=
  ⟨by decide, rfl,
    C3_one_event_per_call nameLen (Call.PM_RD_WR_P fieldX) site0 stateOn (by decide) rfl⟩

/-! ## C4 -/

/-- C4 (as stated, refuted): requesting 64 bytes of which 32 complete, the
value of PM_MOVNTI is the constant 0 of line 169, not the completed count. -/
theorem C4_movnti_value_counterexample :
    (exec nameLen (Call.PM_MOVNTI 4096 64 32) site0 stateOn).1 = Val.int 0 ∧
      (exec nameLen (Call.PM_MOVNTI 4096 64 32) site0 stateOn).1 ≠ Val.int 32 ∧
      (exec nameLen (Call.PM_MOVNTI 4096 64 32) site0 stateOn).1 ≠ Val.word 32 := by
  decide

/-- C4 (amended): with tracing enabled and both counts representable as
`unsigned long`, PM_MOVNTI appends exactly one line, which reads as a
NONTEMPORAL_WRITE event with address `pm_dst`, primary size the requested
count and secondary size the completed count; the value of the wrapper is
the constant 0 and memory is untouched. -/
theorem C4_movnti_event_and_value (pm_dst count copied : Nat) (site : Site) (s : State)
    (hon : s.pmfs_tracemask ≠ 0) (hcount : count < 2 ^ 64) (hcopied : copied < 2 ^ 64) :
    ∃ l : TraceLine,
      (PM_MOVNTI pm_dst count copied site s).2.log = s.log ++ [l] ∧
      l.toEvent = some (Event.mk Kind.NONTEMPORAL_WRITE (some pm_dst) (some count)
        (some copied) (site.file, site.line)) ∧
      (PM_MOVNTI pm_dst count copied site s).1 = Val.int 0 ∧
      (PM_MOVNTI pm_dst count copied site s).2.heap = s.heap := by
  refine ⟨_, PM_TRACE_log_on _ _ s hon, ?_, rfl, ?_⟩
  · simp [toULong]
    omega
  · simp [PM_MOVNTI, PM_TRACE_heap]

/-- Instance of amended C4: 64 bytes requested, 32 completed. -/
theorem C4_movnti_event_and_value_witness :
    stateOn.pmfs_tracemask ≠ 0 ∧ 64 < 2 ^ 64 ∧ 32 < 2 ^ 64 ∧
      ∃ l : TraceLine,
        (PM_MOVNTI 4096 64 32 site0 stateOn).2.log = stateOn.log ++ [l] ∧
        l.toEvent = some (Event.mk Kind.NONTEMPORAL_WRITE (some 4096) (some 64)
          (some 32) (site0.file, site0.line)) ∧
        (PM_MOVNTI 4096 64 32 site0 stateOn).1 = Val.int 0 ∧
        (PM_MOVNTI 4096 64 32 site0 stateOn).2.heap = stateOn.heap :=
  ⟨by decide, by decide, by decide,
    C4_movnti_event_and_value 4096 64 32 site0 stateOn (by decide) (by decide) (by decide)⟩

/-! ## C6 -/

theorem run_log (cap : Nat) (cs : List (Call × Site)) :
    ∀ s : State, (run cap cs s).log = s.log ++ emittedRun cap cs s := by
  induction cs with
  | nil => intro s; simp [run, emittedRun]
  | cons x rest ih =>
    intro s
    obtain ⟨c, site⟩ := x
    simp only [run, emittedRun]
    rw [ih, exec_log, List.append_assoc]

/-- C6: the trace buffer after a run is the buffer before it followed by the
lines of each call, in call order; with tracing enabled the sequence
start_txn, PM_EQU, PM_EQU, PM_FLUSH with done = count, PM_COMMIT, end_txn
emits exactly six lines, of kinds TX_START, WRITE, WRITE, FLUSH, COMMIT,
TX_END in that order. -/
theorem C6_events_in_call_order (cap : Nat) (cs : List (Call × Site)) (s : State)
    (f1 f2 : Field) (v1 v2 a n : Nat) (t1 t2 t3 t4 t5 t6 : Site)
    (hon : s.pmfs_tracemask ≠ 0) :
    (run cap cs s).log = s.log ++ emittedRun cap cs s ∧
      (emittedRun cap
          [(Call.start_txn, t1), (Call.PM_EQU f1 v1, t2), (Call.PM_EQU f2 v2, t3),
           (Call.PM_FLUSH a n n, t4), (Call.PM_COMMIT, t5), (Call.end_txn, t6)] s).map
        (fun l => l.toEvent.map Event.kind)
        = [some Kind.TX_START, some Kind.WRITE, some Kind.WRITE, some Kind.FLUSH,
           some Kind.COMMIT, some Kind.TX_END] := by
  refine ⟨run_log cap cs s, ?_⟩
  simp [emittedRun, emitted, exec, start_txn, PM_EQU, PM_FLUSH, PM_COMMIT, end_txn,
    State.onHeap, PM_TRACE_log_on, PM_TRACE_mask, hon]

/-- Instance of C6: the transaction scenario on the sample field. -/
theorem C6_events_in_call_order_witness :
    stateOn.pmfs_tracemask ≠ 0 ∧
      ((run nameLen sampleCalls stateOn).log
          = stateOn.log ++ emittedRun nameLen sampleCalls stateOn ∧
        (emittedRun nameLen
            [(Call.start_txn, site0), (Call.PM_EQU fieldX 7, site0),
             (Call.PM_EQU fieldX 9, site0), (Call.PM_FLUSH 4096 4 4, site0),
             (Call.PM_COMMIT, site0), (Call.end_txn, site0)] stateOn).map
          (fun l => l.toEvent.map Event.kind)
          = [some Kind.TX_START, some Kind.WRITE, some Kind.WRITE, some Kind.FLUSH,
             some Kind.COMMIT, some Kind.TX_END]) :=
  ⟨by decide,
    C6_events_in_call_order nameLen sampleCalls stateOn fieldX fieldX 7 9 4096 4
      site0 site0 site0 site0 site0 site0 (by decide)⟩

/-! ## Memory lemmas -/

theorem storeLE_mem_outside (w : Nat) :
    ∀ (a v : Nat) (h : Heap) (x : Nat), x < a ∨ a + w ≤ x →
      (storeLE a w v h).mem x = h.mem x := by
  induction w with
  | zero => intro a v h x _; rfl
  | succ w ih =>
    intro a v h x hx
    simp only [storeLE]
    rw [ih (a + 1) (v / 256) _ x (by omega)]
    have hne : x ≠ a := by omega
    simp [Heap.store8, hne]

theorem storeLE_written (w : Nat) :
    ∀ (a v : Nat) (h : Heap), (storeLE a w v h).written = h.written ++ List.range' a w := by
  induction w with
  | zero => intro a v h; simp [storeLE]
  | succ w ih =>
    intro a v h
    simp only [storeLE]
    rw [ih]
    simp [Heap.store8, List.range'_succ]

theorem load_storeLE (w : Nat) :
    ∀ (a v : Nat) (h : Heap), load (storeLE a w v h).mem a w = v % 256 ^ w := by
  induction w with
  | zero => intro a v h; simp [load, Nat.mod_one]
  | succ w ih =>
    intro a v h
    simp only [storeLE, load]
    rw [ih, storeLE_mem_outside w (a + 1) (v / 256) _ a (by omega)]
    simp only [Heap.store8, if_true]
    rw [pow_succ, Nat.mul_comm (256 ^ w) 256, Nat.mod_mul]

theorem pow_two_eight (w : Nat) : 2 ^ (8 * w) = 256 ^ w := by
  rw [pow_mul]; norm_num

theorem assign_post (f : Field) (site : Site) (s : State) (v : Nat) :
    AssignPost f site s
      ((PM_TRACE "%s:%p:%lu:%s:%d\n"
          [Arg.str PM_WRT_MARKER, Arg.ptr f.addr, Arg.ulong f.width,
           Arg.str site.file, Arg.int site.line] s).onHeap (assign f v))
      (v % 2 ^ (8 * f.width)) := by
  refine ⟨?_, rfl, ?_, ?_, ?_⟩
  · simp [State.onHeap, assign, PM_TRACE_heap, load_storeLE, pow_two_eight]
  · intro a ha
    simp [State.onHeap, assign, PM_TRACE_heap, storeLE_mem_outside _ _ _ _ _ ha]
  · intro h0
    simp [State.onHeap, PM_TRACE_log_off _ _ _ h0]
  · intro hon
    refine ⟨_, PM_TRACE_log_on _ _ s hon, ?_⟩
    simp

/-! ## C7 -/

/-- C7: for a field `f` of width w at address X holding `old`, and an operand
`y`, the wrappers PM_EQU, PM_OR_EQU, PM_AND_EQU, PM_ADD_EQU, PM_SUB_EQU leave
the field equal to y, old|y, old&y, old+y, old-y reduced modulo 2^(8w),
return that value, leave every byte outside the field unchanged, append
nothing when the mask is 0 and exactly one WRITE line with address X and
size w when the mask is not 0. -/
theorem C7_assignment_wrappers (f : Field) (y : Nat) (site : Site) (s : State) :
    AssignPost f site s (PM_EQU f y site s) (y % 2 ^ (8 * f.width)) ∧
      AssignPost f site s (PM_OR_EQU f y site s)
        ((load s.heap.mem f.addr f.width ||| y) % 2 ^ (8 * f.width)) ∧
      AssignPost f site s (PM_AND_EQU f y site s)
        ((load s.heap.mem f.addr f.width &&& y) % 2 ^ (8 * f.width)) ∧
      AssignPost f site s (PM_ADD_EQU f y site s)
        ((load s.heap.mem f.addr f.width + y) % 2 ^ (8 * f.width)) ∧
      AssignPost f site s (PM_SUB_EQU f y site s)
        ((((load s.heap.mem f.addr f.width : Nat) : Int) - (y : Int))
          % (2 : Int) ^ (8 * f.width)).toNat := by
  refine ⟨assign_post f site s y, ?_, ?_, ?_, ?_⟩
  · have h := assign_post f site s (load s.heap.mem f.addr f.width ||| y)
    simpa [PM_OR_EQU, PM_TRACE_heap] using h
  · have h := assign_post f site s (load s.heap.mem f.addr f.width &&& y)
    simpa [PM_AND_EQU, PM_TRACE_heap] using h
  · have h := assign_post f site s (load s.heap.mem f.addr f.width + y)
    simpa [PM_ADD_EQU, PM_TRACE_heap] using h
  · have h := assign_post f site s
      ((((load s.heap.mem f.addr f.width : Nat) : Int) - (y : Int))
          % (2 : Int) ^ (8 * f.width)).toNat
    have hlt : ((((load s.heap.mem f.addr f.width : Nat) : Int) - (y : Int))
          % (2 : Int) ^ (8 * f.width)).toNat % 2 ^ (8 * f.width)
        = ((((load s.heap.mem f.addr f.width : Nat) : Int) - (y : Int))
          % (2 : Int) ^ (8 * f.width)).toNat := by
      apply Nat.mod_eq_of_lt
      have hpos : (0 : Int) < (2 : Int) ^ (8 * f.width) := by positivity
      have h1 := Int.emod_lt_of_pos
        (((load s.heap.mem f.addr f.width : Nat) : Int) - (y : Int)) hpos
      have h2 := Int.emod_nonneg
        (((load s.heap.mem f.addr f.width : Nat) : Int) - (y : Int)) (ne_of_gt hpos)
      zify
      rw [Int.toNat_of_nonneg h2]
      exact_mod_cast h1
    rw [hlt] at h
    simpa [PM_SUB_EQU, PM_TRACE_heap] using h

/-- Scenario A of the specification as an instance of C7: PM_EQU of 7 into
the 4-byte sample field, with tracing enabled. -/
theorem C7_assignment_wrappers_witness :
    AssignPost fieldX site0 stateOn (PM_EQU fieldX 7 site0 stateOn) 7 :=
  (C7_assignment_wrappers fieldX 7 site0 stateOn).1

/-! ## Bulk copy -/

theorem memcpyLoop_mem_outside (n : Nat) :
    ∀ (d src : Nat) (h : Heap) (x : Nat), x < d ∨ d + n ≤ x →
      (memcpyLoop n d src h).mem x = h.mem x := by
  induction n with
  | zero => intro d src h x _; rfl
  | succ n ih =>
    intro d src h x hx
    simp only [memcpyLoop]
    rw [ih (d + 1) (src + 1) _ x (by omega)]
    have hne : x ≠ d := by omega
    simp [Heap.store8, hne]

theorem memcpyLoop_written (n : Nat) :
    ∀ (d src : Nat) (h : Heap),
      (memcpyLoop n d src h).written = h.written ++ List.range' d n := by
  induction n with
  | zero => intro d src h; simp [memcpyLoop]
  | succ n ih =>
    intro d src h
    simp only [memcpyLoop]
    rw [ih]
    simp [Heap.store8, List.range'_succ]

theorem memcpyLoop_copies (n : Nat) :
    ∀ (d src : Nat) (h : Heap), d + n ≤ src ∨ src + n ≤ d →
      ∀ i, i < n → (memcpyLoop n d src h).mem (d + i) = h.mem (src + i) := by
  induction n with
  | zero => intro d src h _ i hi; omega
  | succ n ih =>
    intro d src h hdisj i hi
    simp only [memcpyLoop]
    cases i with
    | zero =>
      rw [memcpyLoop_mem_outside n (d + 1) (src + 1) _ (d + 0) (by omega)]
      simp [Heap.store8]
    | succ j =>
      have hstep := ih (d + 1) (src + 1) (h.store8 d (h.mem src)) (by omega) j (by omega)
      have e1 : d + (j + 1) = d + 1 + j := by omega
      have e2 : src + (j + 1) = src + 1 + j := by omega
      rw [e1, e2, hstep]
      have hne : src + 1 + j ≠ d := by omega
      simp [Heap.store8, hne]

/-! ## C8 -/

/-- C8: for every count n representable as `size_t` and non-overlapping
source S and destination D, PM_MEMCPY(D, S, n) leaves bytes D[0..n) equal to
the former bytes S[0..n) and every byte outside D[0..n) unchanged, whatever
the trace mask; with the mask 0 it appends nothing to the trace buffer and
otherwise exactly one WRITE line with address D and size n. -/
theorem C8_memcpy_effect (D S n : Nat) (site : Site) (s : State)
    (hn : n < 2 ^ 64) (hdisj : D + n ≤ S ∨ S + n ≤ D) :
    (∀ i, i < n → (PM_MEMCPY D S n site s).2.heap.mem (D + i) = s.heap.mem (S + i)) ∧
      (∀ a, a < D ∨ D + n ≤ a → (PM_MEMCPY D S n site s).2.heap.mem a = s.heap.mem a) ∧
      (s.pmfs_tracemask = 0 → (PM_MEMCPY D S n site s).2.log = s.log) ∧
      (s.pmfs_tracemask ≠ 0 → ∃ l : TraceLine,
        (PM_MEMCPY D S n site s).2.log = s.log ++ [l] ∧
        l.toEvent = some (Event.mk Kind.WRITE (some D) (some n) none
          (site.file, site.line))) := by
  have hu : toULong n = n := Nat.mod_eq_of_lt hn
  refine ⟨?_, ?_, ?_, ?_⟩
  · intro i hi
    simp only [PM_MEMCPY, State.onHeap, memcpy, PM_TRACE_heap, hu]
    exact memcpyLoop_copies n D S s.heap hdisj i hi
  · intro a ha
    simp only [PM_MEMCPY, State.onHeap, memcpy, PM_TRACE_heap, hu]
    exact memcpyLoop_mem_outside n D S s.heap a ha
  · intro h0
    simp [PM_MEMCPY, State.onHeap, PM_TRACE_log_off _ _ _ h0]
  · intro hon
    refine ⟨_, PM_TRACE_log_on _ _ s hon, ?_⟩
    simp [hu]

/-- Scenario B of the specification as an instance of C8: 128 bytes copied
from address 100 to address 1000 with tracing disabled. -/
theorem C8_memcpy_effect_witness :
    128 < 2 ^ 64 ∧ (1000 + 128 ≤ 100 ∨ 100 + 128 ≤ 1000) ∧
      ((∀ i, i < 128 →
          (PM_MEMCPY 1000 100 128 site0 stateOff).2.heap.mem (1000 + i)
            = stateOff.heap.mem (100 + i)) ∧
        (∀ a, a < 1000 ∨ 1000 + 128 ≤ a →
          (PM_MEMCPY 1000 100 128 site0 stateOff).2.heap.mem a = stateOff.heap.mem a) ∧
        (stateOff.pmfs_tracemask = 0 →
          (PM_MEMCPY 1000 100 128 site0 stateOff).2.log = stateOff.log) ∧
        (stateOff.pmfs_tracemask ≠ 0 → ∃ l : TraceLine,
          (PM_MEMCPY 1000 100 128 site0 stateOff).2.log = stateOff.log ++ [l] ∧
          l.toEvent = some (Event.mk Kind.WRITE (some 1000) (some 128) none
            (site0.file, site0.line)))) :=
  ⟨by decide, by decide, C8_memcpy_effect 1000 100 128 site0 stateOff (by decide) (by decide)⟩

/-! ## Footprints -/

theorem memsetLoop_written (n : Nat) :
    ∀ (d c : Nat) (h : Heap),
      (memsetLoop n d c h).written = h.written ++ List.range' d n := by
  induction n with
  | zero => intro d c h; simp [memsetLoop]
  | succ n ih =>
    intro d c h
    simp only [memsetLoop]
    rw [ih]
    simp [Heap.store8, List.range'_succ]

theorem strlenFrom_le (m : Nat → Nat) (fuel : Nat) :
    ∀ src, strlenFrom m fuel src ≤ fuel := by
  induction fuel with
  | zero => intro src; simp [strlenFrom]
  | succ fuel ih =>
    intro src
    simp only [strlenFrom]
    split
    · omega
    · have := ih (src + 1); omega

theorem strlenFrom_nonzero (m : Nat → Nat) (fuel : Nat) :
    ∀ src j, j < strlenFrom m fuel src → m (src + j) ≠ 0 := by
  induction fuel with
  | zero => intro src j hj; simp [strlenFrom] at hj
  | succ fuel ih =>
    intro src j hj
    simp only [strlenFrom] at hj
    split at hj
    · omega
    · rename_i hne
      cases j with
      | zero => simpa using hne
      | succ k =>
        have := ih (src + 1) k (by omega)
        have e : src + (k + 1) = src + 1 + k := by omega
        rw [e]; exact this

theorem strcpyLoop_written_form (fuel : Nat) :
    ∀ (d src : Nat) (h : Heap),
      ∃ k, (strcpyLoop fuel d src h).written = h.written ++ List.range' d k := by
  induction fuel with
  | zero => intro d src h; exact ⟨0, by simp [strcpyLoop]⟩
  | succ fuel ih =>
    intro d src h
    simp only [strcpyLoop]
    split
    · exact ⟨1, by simp [Heap.store8]⟩
    · obtain ⟨k, hk⟩ := ih (d + 1) (src + 1) (h.store8 d (h.mem src))
      exact ⟨k + 1, by rw [hk]; simp [Heap.store8, List.range'_succ]⟩

theorem strcpyLoop_written (fuel : Nat) :
    ∀ (d src : Nat) (h : Heap) (n : Nat), (∀ j, j < n → h.mem (src + j) ≠ 0) → n < fuel →
      ∃ k, n + 1 ≤ k ∧ (strcpyLoop fuel d src h).written = h.written ++ List.range' d k := by
  induction fuel with
  | zero => intro d src h n _ hn; omega
  | succ fuel ih =>
    intro d src h n hP hn
    simp only [strcpyLoop]
    split
    · rename_i hz
      have hn0 : n = 0 := by
        by_contra hne
        exact hP 0 (by omega) (by simpa using hz)
      exact ⟨1, by omega, by simp [Heap.store8]⟩
    · rename_i hnz
      cases n with
      | zero =>
        obtain ⟨k, hk⟩ := strcpyLoop_written_form fuel (d + 1) (src + 1)
          (h.store8 d (h.mem src))
        exact ⟨k + 1, by omega, by rw [hk]; simp [Heap.store8, List.range'_succ]⟩
      | succ n1 =>
        have hP1 : ∀ j, j < n1 → (h.store8 d (h.mem src)).mem (src + 1 + j) ≠ 0 := by
          intro j hj
          have hsrc := hP (j + 1) (by omega)
          have e : src + (j + 1) = src + 1 + j := by omega
          rw [e] at hsrc
          simp only [Heap.store8]
          split
          · exact hnz
          · exact hsrc
        obtain ⟨k, hk1, hk⟩ := ih (d + 1) (src + 1) (h.store8 d (h.mem src)) n1 hP1
          (by omega)
        exact ⟨k + 1, by omega, by rw [hk]; simp [Heap.store8, List.range'_succ]⟩

theorem recorded_le_strlen (cap L : Nat) (hcap : cap < 2 ^ 31) :
    intToUInt (min (toInt cap) (toInt L)) ≤ L ∧
      (L = 2 ^ 64 → intToUInt (min (toInt cap) (toInt L)) = 0) := by
  unfold intToUInt toInt
  rcases min_choice ((((cap + 2 ^ 31) % 2 ^ 32 : Nat) : Int) - 2 ^ 31)
      ((((L + 2 ^ 31) % 2 ^ 32 : Nat) : Int) - 2 ^ 31) with hm | hm
  · have hle := min_le_right ((((cap + 2 ^ 31) % 2 ^ 32 : Nat) : Int) - 2 ^ 31)
      ((((L + 2 ^ 31) % 2 ^ 32 : Nat) : Int) - 2 ^ 31)
    rw [hm] at hle ⊢
    constructor
    · omega
    · intro hL; subst hL; omega
  · rw [hm]
    constructor
    · omega
    · intro hL; subst hL; omega

/-! ## C5 -/

/-- C5 (as stated, refuted): PM_STRCPY of the 2-character string at address
100 to address 300 emits a WRITE line with address 300 and size 2, while
strcpy stores to the three bytes 300, 301, 302 (the terminating NUL
included); the recorded extent is not the set of bytes written. -/
theorem C5_strcpy_extent_counterexample :
    (emitted nameLen (Call.PM_STRCPY 300 100) site0 stateOn).map TraceLine.toEvent
        = [some (Event.mk Kind.WRITE (some 300) (some 2) none ("fs/pmfs/inode.c", 120))] ∧
      footprint nameLen (Call.PM_STRCPY 300 100) site0 stateOn = [300, 301, 302] ∧
      ¬ ExtentExact nameLen (Call.PM_STRCPY 300 100) site0 stateOn := by
  refine ⟨by decide, by decide, ?_⟩
  intro h
  have hl : TraceLine.mk "%s:%p:%u:%s:%d\n"
      [Arg.str PM_WRT_MARKER, Arg.ptr 300, Arg.uint 2, Arg.str "fs/pmfs/inode.c",
       Arg.int 120] ∈ emitted nameLen (Call.PM_STRCPY 300 100) site0 stateOn := by
    decide
  obtain ⟨a, n, ha, hn, hx⟩ := h _ hl
    (Event.mk Kind.WRITE (some 300) (some 2) none ("fs/pmfs/inode.c", 120))
    (by decide) rfl
  have h302 : 302 ∈ footprint nameLen (Call.PM_STRCPY 300 100) site0 stateOn := by decide
  have hr := (hx 302).1 h302
  simp only [Option.some.injEq] at ha hn
  omega

/-- C5 (amended): with tracing enabled, each of the write wrappers PM_EQU,
PM_OR_EQU, PM_AND_EQU, PM_ADD_EQU, PM_SUB_EQU, PM_MEMSET, PM_MEMCPY and
PM_STRCPY emits exactly one WRITE line; every byte of the recorded range
`[address, address + primary_size)` is stored to by the call, and for every
wrapper but PM_STRCPY the call stores to no other byte. (`PMFS_NAME_LEN` is
taken to fit an `int`.) -/
theorem C5_write_extent (cap : Nat) (c : Call) (site : Site) (s : State)
    (hon : s.pmfs_tracemask ≠ 0) (hcap : cap < 2 ^ 31) (hw : c.isWriteWrapper = true) :
    ∃ a n,
      (emitted cap c site s).map TraceLine.toEvent
        = [some (Event.mk Kind.WRITE (some a) (some n) none (site.file, site.line))] ∧
      (∀ x, a ≤ x ∧ x < a + n → x ∈ footprint cap c site s) ∧
      ((∀ d src, c ≠ Call.PM_STRCPY d src) →
        ∀ x, x ∈ footprint cap c site s → a ≤ x ∧ x < a + n) := by
  cases c <;> simp [Call.isWriteWrapper] at hw
  case PM_EQU f y =>
    refine ⟨f.addr, f.width, ?_, ?_, ?_⟩ <;>
      simp [emitted, footprint, exec, PM_EQU, State.onHeap, assign, PM_TRACE_log_on,
        PM_TRACE_heap, hon, storeLE_written, List.mem_range'_1]
  case PM_OR_EQU f y =>
    refine ⟨f.addr, f.width, ?_, ?_, ?_⟩ <;>
      simp [emitted, footprint, exec, PM_OR_EQU, State.onHeap, assign, PM_TRACE_log_on,
        PM_TRACE_heap, hon, storeLE_written, List.mem_range'_1]
  case PM_AND_EQU f y =>
    refine ⟨f.addr, f.width, ?_, ?_, ?_⟩ <;>
      simp [emitted, footprint, exec, PM_AND_EQU, State.onHeap, assign, PM_TRACE_log_on,
        PM_TRACE_heap, hon, storeLE_written, List.mem_range'_1]
  case PM_ADD_EQU f y =>
    refine ⟨f.addr, f.width, ?_, ?_, ?_⟩ <;>
      simp [emitted, footprint, exec, PM_ADD_EQU, State.onHeap, assign, PM_TRACE_log_on,
        PM_TRACE_heap, hon, storeLE_written, List.mem_range'_1]
  case PM_SUB_EQU f y =>
    refine ⟨f.addr, f.width, ?_, ?_, ?_⟩ <;>
      simp [emitted, footprint, exec, PM_SUB_EQU, State.onHeap, assign, PM_TRACE_log_on,
        PM_TRACE_heap, hon, storeLE_written, List.mem_range'_1]
  case PM_MEMSET d v sz =>
    refine ⟨d, toULong sz, ?_, ?_, ?_⟩ <;>
      simp [emitted, footprint, exec, PM_MEMSET, State.onHeap, memset, PM_TRACE_log_on,
        PM_TRACE_heap, hon, memsetLoop_written, List.mem_range'_1]
  case PM_MEMCPY d src sz =>
    refine ⟨d, toULong sz, ?_, ?_, ?_⟩ <;>
      simp [emitted, footprint, exec, PM_MEMCPY, State.onHeap, memcpy, PM_TRACE_log_on,
        PM_TRACE_heap, hon, memcpyLoop_written, List.mem_range'_1]
  case PM_STRCPY d src =>
    refine ⟨d, intToUInt (min (toInt cap) (toInt (strlen s.heap.mem src))), ?_, ?_, ?_⟩
    · simp [emitted, exec, PM_STRCPY, State.onHeap, PM_TRACE_log_on, hon]
    · intro x hx
      have hrec := recorded_le_strlen cap (strlen s.heap.mem src) hcap
      have hle : strlen s.heap.mem src ≤ 2 ^ 64 := strlenFrom_le s.heap.mem ADDR_SPACE src
      by_cases hL : strlen s.heap.mem src = 2 ^ 64
      · have h0 := hrec.2 hL
        omega
      · have hlt : strlen s.heap.mem src < ADDR_SPACE := by
          unfold ADDR_SPACE; omega
        obtain ⟨k, hk1, hk⟩ := strcpyLoop_written ADDR_SPACE d src s.heap
          (strlen s.heap.mem src) (strlenFrom_nonzero s.heap.mem ADDR_SPACE src) hlt
        have hin : x ∈ List.range' d k := by
          rw [List.mem_range'_1]
          have := hrec.1
          omega
        simpa [footprint, exec, PM_STRCPY, State.onHeap, strcpy, PM_TRACE_heap, hk] using hin
    · intro hne
      exact absurd rfl (hne d src)

/-- Instance of amended C5: PM_STRCPY of the sample string, tracing enabled. -/
theorem C5_write_extent_witness :
    stateOn.pmfs_tracemask ≠ 0 ∧ nameLen < 2 ^ 31 ∧
      (Call.PM_STRCPY 300 100).isWriteWrapper = true ∧
      ∃ a n,
        (emitted nameLen (Call.PM_STRCPY 300 100) site0 stateOn).map TraceLine.toEvent
          = [some (Event.mk Kind.WRITE (some a) (some n) none (site0.file, site0.line))] ∧
        (∀ x, a ≤ x ∧ x < a + n → x ∈ footprint nameLen (Call.PM_STRCPY 300 100) site0 stateOn) ∧
        ((∀ d src, Call.PM_STRCPY 300 100 ≠ Call.PM_STRCPY d src) →
          ∀ x, x ∈ footprint nameLen (Call.PM_STRCPY 300 100) site0 stateOn →
            a ≤ x ∧ x < a + n) :=
  ⟨by decide, by decide, rfl,
    C5_write_extent nameLen (Call.PM_STRCPY 300 100) site0 stateOn (by decide) (by decide) rfl⟩

/-! ## Shape of emitted lines -/

theorem emitted_off (cap : Nat) (c : Call) (site : Site) (s : State)
    (h : s.pmfs_tracemask = 0) : emitted cap c site s = [] := by
  unfold emitted
  rw [exec_log_off cap c site _ (by simpa using h)]

theorem emittedRun_forall (cap : Nat) (P : TraceLine → Prop)
    (hP : ∀ (c : Call) (site : Site) (s : State) (l : TraceLine),
      l ∈ emitted cap c site s → P l) (cs : List (Call × Site)) :
    ∀ (s : State) (l : TraceLine), l ∈ emittedRun cap cs s → P l := by
  induction cs with
  | nil => intro s l hl; simp [emittedRun] at hl
  | cons x rest ih =>
    intro s l hl
    obtain ⟨c, site⟩ := x
    simp only [emittedRun, List.mem_append] at hl
    rcases hl with hl | hl
    · exact hP c site s l hl
    · exact ih _ l hl

theorem emitted_secondary (cap : Nat) (c : Call) (site : Site) (s : State) (l : TraceLine)
    (hl : l ∈ emitted cap c site s) :
    ∃ e : Event, l.toEvent = some e ∧
      (e.secondary_size.isSome = true ↔
        (e.kind = Kind.FLUSH ∨ e.kind = Kind.NONTEMPORAL_WRITE)) ∧
      ((e.kind = Kind.FLUSH ∨ e.kind = Kind.NONTEMPORAL_WRITE) →
        e.primary_size.isSome = true) := by
  by_cases h0 : s.pmfs_tracemask = 0
  · rw [emitted_off cap c site s h0] at hl
    simp at hl
  · cases c <;>
      simp [emitted, exec, PM_STORE, PM_WRITE, PM_EQU, PM_OR_EQU, PM_AND_EQU, PM_ADD_EQU,
        PM_SUB_EQU, PM_MEMSET, PM_MEMCPY, PM_STRCPY, PM_MOVNTI, PM_READ, PM_READ_P, PM_RD_WR_P,
        PM_MEMCMP, start_epoch, end_epoch, start_txn, end_txn, PM_FLUSH, PM_COMMIT,
        PM_BARRIER, PM_FENCE, State.onHeap, PM_TRACE_log_on, PM_TRACE_mask, h0] at hl <;>
      (try rcases hl with rfl | rfl) <;> simp

theorem emitted_address (cap : Nat) (c : Call) (site : Site) (s : State) (l : TraceLine)
    (hl : l ∈ emitted cap c site s) :
    ∃ e : Event, l.toEvent = some e ∧
      ((e.kind = Kind.FENCE ∨ e.kind = Kind.BARRIER ∨ e.kind = Kind.COMMIT ∨
          e.kind = Kind.TX_START ∨ e.kind = Kind.TX_END) →
        e.address = none ∧ e.primary_size = none ∧ e.secondary_size = none) ∧
      ((e.kind = Kind.WRITE ∨ e.kind = Kind.READ ∨ e.kind = Kind.NONTEMPORAL_WRITE ∨
          e.kind = Kind.FLUSH) → e.address.isSome = true) := by
  by_cases h0 : s.pmfs_tracemask = 0
  · rw [emitted_off cap c site s h0] at hl
    simp at hl
  · cases c <;>
      simp [emitted, exec, PM_STORE, PM_WRITE, PM_EQU, PM_OR_EQU, PM_AND_EQU, PM_ADD_EQU,
        PM_SUB_EQU, PM_MEMSET, PM_MEMCPY, PM_STRCPY, PM_MOVNTI, PM_READ, PM_READ_P, PM_RD_WR_P,
        PM_MEMCMP, start_epoch, end_epoch, start_txn, end_txn, PM_FLUSH, PM_COMMIT,
        PM_BARRIER, PM_FENCE, State.onHeap, PM_TRACE_log_on, PM_TRACE_mask, h0] at hl <;>
      (try rcases hl with rfl | rfl) <;> simp

/-! ## C9 -/

/-- C9: every line emitted by a run of wrapper calls reads as an event whose
secondary size is present if and only if its kind is FLUSH or
NONTEMPORAL_WRITE, and such events also carry a primary size; with tracing
enabled the line of PM_FLUSH carries `count` as primary and `done` as
secondary size (as `unsigned int`), and the line of PM_MOVNTI carries
`count` as primary and `copied` as secondary size (as `unsigned long`). -/
theorem C9_secondary_size_iff (cap : Nat) (cs : List (Call × Site)) (s : State) :
    (∀ l ∈ emittedRun cap cs s, ∃ e : Event, l.toEvent = some e ∧
        (e.secondary_size.isSome = true ↔
          (e.kind = Kind.FLUSH ∨ e.kind = Kind.NONTEMPORAL_WRITE)) ∧
        ((e.kind = Kind.FLUSH ∨ e.kind = Kind.NONTEMPORAL_WRITE) →
          e.primary_size.isSome = true)) ∧
      (∀ (dst count done : Nat) (site : Site), s.pmfs_tracemask ≠ 0 →
        (emitted cap (Call.PM_FLUSH dst count done) site s).map TraceLine.toEvent
          = [some (Event.mk Kind.FLUSH (some dst) (some (toUInt count))
              (some (toUInt done)) (site.file, site.line))]) ∧
      (∀ (dst count copied : Nat) (site : Site), s.pmfs_tracemask ≠ 0 →
        (emitted cap (Call.PM_MOVNTI dst count copied) site s).map TraceLine.toEvent
          = [some (Event.mk Kind.NONTEMPORAL_WRITE (some dst) (some (toULong count))
              (some (toULong copied)) (site.file, site.line))]) := by
  refine ⟨?_, ?_, ?_⟩
  · intro l hl
    exact emittedRun_forall cap _ (fun c site s l hl => emitted_secondary cap c site s l hl)
      cs s l hl
  · intro dst count done site hon
    simp [emitted, exec, PM_FLUSH, PM_TRACE_log_on, hon]
  · intro dst count copied site hon
    simp [emitted, exec, PM_MOVNTI, PM_TRACE_log_on, hon]

/-- Instance of C9 on the sample run with tracing enabled. -/
theorem C9_secondary_size_iff_witness :
    (∀ l ∈ emittedRun nameLen sampleCalls stateOn, ∃ e : Event, l.toEvent = some e ∧
        (e.secondary_size.isSome = true ↔
          (e.kind = Kind.FLUSH ∨ e.kind = Kind.NONTEMPORAL_WRITE)) ∧
        ((e.kind = Kind.FLUSH ∨ e.kind = Kind.NONTEMPORAL_WRITE) →
          e.primary_size.isSome = true)) ∧
      (emitted nameLen (Call.PM_FLUSH 4096 64 32) site0 stateOn).map TraceLine.toEvent
        = [some (Event.mk Kind.FLUSH (some 4096) (some (toUInt 64))
            (some (toUInt 32)) (site0.file, site0.line))] :=
  ⟨(C9_secondary_size_iff nameLen sampleCalls stateOn).1,
    (C9_secondary_size_iff nameLen sampleCalls stateOn).2.1 4096 64 32 site0 (by decide)⟩

/-! ## C10 -/

/-- C10: every line emitted by a run reads as an event; an event of kind
FENCE, BARRIER, COMMIT, TX_START or TX_END has no address, no primary and no
secondary size, and an event of kind WRITE, READ, NONTEMPORAL_WRITE or FLUSH
has an address; with tracing enabled PM_FENCE, PM_BARRIER, PM_COMMIT,
start_txn and end_txn each emit one line made of the marker, the origin file
and the origin line only. -/
theorem C10_boundary_no_address (cap : Nat) (cs : List (Call × Site)) (s : State) :
    (∀ l ∈ emittedRun cap cs s, ∃ e : Event, l.toEvent = some e ∧
        ((e.kind = Kind.FENCE ∨ e.kind = Kind.BARRIER ∨ e.kind = Kind.COMMIT ∨
            e.kind = Kind.TX_START ∨ e.kind = Kind.TX_END) →
          e.address = none ∧ e.primary_size = none ∧ e.secondary_size = none) ∧
        ((e.kind = Kind.WRITE ∨ e.kind = Kind.READ ∨ e.kind = Kind.NONTEMPORAL_WRITE ∨
            e.kind = Kind.FLUSH) → e.address.isSome = true)) ∧
      (∀ (c : Call) (site : Site),
        c ∈ [Call.PM_FENCE, Call.PM_BARRIER, Call.PM_COMMIT, Call.start_txn, Call.end_txn] →
        s.pmfs_tracemask ≠ 0 →
        ∃ (m : String) (k : Kind),
          emitted cap c site s
            = [TraceLine.mk "%s:%s:%d\n" [Arg.str m, Arg.str site.file, Arg.int site.line]] ∧
          kindOfMarker m = some k ∧ c.documentedKinds = [k] ∧
          (emitted cap c site s).map TraceLine.toEvent
            = [some (Event.mk k none none none (site.file, site.line))]) := by
  refine ⟨?_, ?_⟩
  · intro l hl
    exact emittedRun_forall cap _ (fun c site s l hl => emitted_address cap c site s l hl)
      cs s l hl
  · intro c site hc hon
    simp only [List.mem_cons, List.mem_singleton, List.not_mem_nil, or_false] at hc
    rcases hc with rfl | rfl | rfl | rfl | rfl
    · exact ⟨PM_FENCE_MARKER, Kind.FENCE, by
        simp [emitted, exec, PM_FENCE, PM_TRACE_log_on, hon, Call.documentedKinds]⟩
    · exact ⟨PM_BARRIER_MARKER, Kind.BARRIER, by
        simp [emitted, exec, PM_BARRIER, PM_TRACE_log_on, hon, Call.documentedKinds]⟩
    · exact ⟨PM_COMMIT_MARKER, Kind.COMMIT, by
        simp [emitted, exec, PM_COMMIT, PM_TRACE_log_on, hon, Call.documentedKinds]⟩
    · exact ⟨PM_TX_START, Kind.TX_START, by
        simp [emitted, exec, start_txn, PM_TRACE_log_on, hon, Call.documentedKinds]⟩
    · exact ⟨PM_TX_END, Kind.TX_END, by
        simp [emitted, exec, end_txn, PM_TRACE_log_on, hon, Call.documentedKinds]⟩

/-- Instance of C10 on the sample run and on PM_COMMIT, tracing enabled. -/
theorem C10_boundary_no_address_witness :
    (∀ l ∈ emittedRun nameLen sampleCalls stateOn, ∃ e : Event, l.toEvent = some e ∧
        ((e.kind = Kind.FENCE ∨ e.kind = Kind.BARRIER ∨ e.kind = Kind.COMMIT ∨
            e.kind = Kind.TX_START ∨ e.kind = Kind.TX_END) →
          e.address = none ∧ e.primary_size = none ∧ e.secondary_size = none) ∧
        ((e.kind = Kind.WRITE ∨ e.kind = Kind.READ ∨ e.kind = Kind.NONTEMPORAL_WRITE ∨
            e.kind = Kind.FLUSH) → e.address.isSome = true)) ∧
      ∃ (m : String) (k : Kind),
        emitted nameLen Call.PM_COMMIT site0 stateOn
          = [TraceLine.mk "%s:%s:%d\n"
              [Arg.str m, Arg.str site0.file, Arg.int site0.line]] ∧
        kindOfMarker m = some k ∧ Call.PM_COMMIT.documentedKinds = [k] ∧
        (emitted nameLen Call.PM_COMMIT site0 stateOn).map TraceLine.toEvent
          = [some (Event.mk k none none none (site0.file, site0.line))] :=
  ⟨(C10_boundary_no_address nameLen sampleCalls stateOn).1,
    (C10_boundary_no_address nameLen sampleCalls stateOn).2 Call.PM_COMMIT site0
      (by decide) (by decide)⟩

/-! ## String copy -/

theorem strlenFrom_eq (m : Nat → Nat) (fuel : Nat) :
    ∀ (src n : Nat), (∀ j, j < n → m (src + j) ≠ 0) → m (src + n) = 0 → n < fuel →
      strlenFrom m fuel src = n := by
  induction fuel with
  | zero => intro src n _ _ hn; omega
  | succ fuel ih =>
    intro src n hP hz hn
    simp only [strlenFrom]
    cases n with
    | zero => simp [show m src = 0 by simpa using hz]
    | succ n1 =>
      have h0 : m src ≠ 0 := by simpa using hP 0 (by omega)
      simp only [h0, if_false]
      have := ih (src + 1) n1
        (fun j hj => by
          have e : src + 1 + j = src + (j + 1) := by omega
          rw [e]; exact hP (j + 1) (by omega))
        (by
          have e : src + 1 + n1 = src + (n1 + 1) := by omega
          rw [e]; exact hz)
        (by omega)
      omega

theorem strlenFrom_terminator (m : Nat → Nat) (fuel : Nat) :
    ∀ src, strlenFrom m fuel src < fuel → m (src + strlenFrom m fuel src) = 0 := by
  induction fuel with
  | zero => intro src h; omega
  | succ fuel ih =>
    intro src h
    simp only [strlenFrom] at h ⊢
    split
    · rename_i hz; simpa using hz
    · rename_i hnz
      simp only [hnz, if_false] at h
      have := ih (src + 1) (by omega)
      have e : src + (strlenFrom m fuel (src + 1) + 1) = src + 1 + strlenFrom m fuel (src + 1) := by
        omega
      rw [e]; exact this

theorem strcpyLoop_exact (fuel : Nat) :
    ∀ (d src : Nat) (h : Heap) (n : Nat), (∀ j, j < n → h.mem (src + j) ≠ 0) →
      h.mem (src + n) = 0 → n < fuel → (d + n + 1 ≤ src ∨ src + n + 1 ≤ d) →
      (strcpyLoop fuel d src h).written = h.written ++ List.range' d (n + 1) ∧
        (∀ i, i ≤ n → (strcpyLoop fuel d src h).mem (d + i) = h.mem (src + i)) ∧
        (∀ x, x < d ∨ d + n + 1 ≤ x → (strcpyLoop fuel d src h).mem x = h.mem x) := by
  induction fuel with
  | zero => intro d src h n _ _ hn; omega
  | succ fuel ih =>
    intro d src h n hP hz hn hdisj
    simp only [strcpyLoop]
    cases n with
    | zero =>
      have h0 : h.mem src = 0 := by simpa using hz
      simp only [h0, if_true]
      refine ⟨by simp [Heap.store8], ?_, ?_⟩
      · intro i hi
        have : i = 0 := by omega
        subst this
        simp [Heap.store8, h0]
      · intro x hx
        have hne : x ≠ d := by omega
        simp [Heap.store8, hne]
    | succ n1 =>
      have h0 : h.mem src ≠ 0 := by simpa using hP 0 (by omega)
      simp only [h0, if_false]
      have hP1 : ∀ j, j < n1 → (h.store8 d (h.mem src)).mem (src + 1 + j) ≠ 0 := by
        intro j hj
        have hne : src + 1 + j ≠ d := by omega
        have e : src + 1 + j = src + (j + 1) := by omega
        simp only [Heap.store8, hne, if_false]
        rw [e]; exact hP (j + 1) (by omega)
      have hz1 : (h.store8 d (h.mem src)).mem (src + 1 + n1) = 0 := by
        have hne : src + 1 + n1 ≠ d := by omega
        have e : src + 1 + n1 = src + (n1 + 1) := by omega
        simp only [Heap.store8, hne, if_false]
        rw [e]; exact hz
      obtain ⟨hw, hc, ho⟩ := ih (d + 1) (src + 1) (h.store8 d (h.mem src)) n1 hP1 hz1
        (by omega) (by omega)
      refine ⟨?_, ?_, ?_⟩
      · rw [hw]; simp [Heap.store8, List.range'_succ]
      · intro i hi
        cases i with
        | zero =>
          rw [ho (d + 0) (by omega)]
          simp [Heap.store8]
        | succ k =>
          have e1 : d + (k + 1) = d + 1 + k := by omega
          have e2 : src + (k + 1) = src + 1 + k := by omega
          rw [e1, e2, hc k (by omega)]
          have hne : src + 1 + k ≠ d := by omega
          simp [Heap.store8, hne]
      · intro x hx
        rw [ho x (by omega)]
        have hne : x ≠ d := by omega
        simp [Heap.store8, hne]

theorem recorded_eq_min (cap L : Nat) (hcap : cap < 2 ^ 31) (hL : L < 2 ^ 31) :
    intToUInt (min (toInt cap) (toInt L)) = min cap L := by
  have h1 : toInt cap = (cap : Int) := by unfold toInt; omega
  have h2 : toInt L = (L : Int) := by unfold toInt; omega
  rw [h1, h2]
  unfold intToUInt
  rcases Nat.le_total cap L with h | h
  · rw [min_eq_left (by exact_mod_cast h), Nat.min_eq_left h]; omega
  · rw [min_eq_right (by exact_mod_cast h), Nat.min_eq_right h]; omega

theorem longMem_strlen : strlen longMem 1000 = 300 := by
  unfold strlen ADDR_SPACE
  apply strlenFrom_eq
  · intro j hj
    have : 1000 ≤ 1000 + j ∧ 1000 + j < 1300 := by omega
    simp [longMem, this]
  · simp [longMem]
  · norm_num

/-! ## C11 -/

/-- C11 (as stated, refuted): with `PMFS_NAME_LEN = 255`, PM_STRCPY of a
string of 300 characters to address 5000 emits a WRITE line of size 255 and
strcpy stores to the byte at offset 300 of the destination, beyond the
capacity. -/
theorem C11_strcpy_overrun_counterexample :
    (emitted nameLen (Call.PM_STRCPY 5000 1000) site0 longState).map TraceLine.toEvent
        = [some (Event.mk Kind.WRITE (some 5000) (some 255) none ("fs/pmfs/inode.c", 120))] ∧
      5000 + 300 ∈ footprint nameLen (Call.PM_STRCPY 5000 1000) site0 longState ∧
      ¬ (5000 + 300 < 5000 + nameLen) := by
  refine ⟨?_, ?_, by decide⟩
  · have hs : strlen longState.heap.mem 1000 = 300 := longMem_strlen
    have hm : longState.pmfs_tracemask ≠ 0 := by decide
    simp [emitted, exec, PM_STRCPY, State.onHeap, PM_TRACE_log_on, hm, hs]
    decide
  · obtain ⟨k, hk1, hk⟩ := strcpyLoop_written ADDR_SPACE 5000 1000 longState.heap 300
      (fun j hj => by
        have : 1000 ≤ 1000 + j ∧ 1000 + j < 1300 := by omega
        simp [longState, longMem, this])
      (by unfold ADDR_SPACE; norm_num)
    have hin : 5000 + 300 ∈ List.range' 5000 k := by
      rw [List.mem_range'_1]; omega
    simpa [footprint, exec, PM_STRCPY, State.onHeap, strcpy, PM_TRACE_heap, hk] using hin

/-- C11 (amended): with tracing enabled, `PMFS_NAME_LEN` and the length of
the source string both fitting an `int`, PM_STRCPY(dst, src) emits exactly
one WRITE line with address `dst` and size min(PMFS_NAME_LEN, strlen(src));
the copy is not bounded by the capacity: strcpy stores to every byte of
`[dst, dst + strlen(src)]`, and when source and destination do not overlap
it stores to exactly these strlen(src) + 1 bytes, which then hold the string
and its terminator. -/
theorem C11_strcpy_event_and_copy (cap dst src : Nat) (site : Site) (s : State)
    (hon : s.pmfs_tracemask ≠ 0) (hcap : cap < 2 ^ 31)
    (hlen : strlen s.heap.mem src < 2 ^ 31) :
    (emitted cap (Call.PM_STRCPY dst src) site s).map TraceLine.toEvent
        = [some (Event.mk Kind.WRITE (some dst) (some (min cap (strlen s.heap.mem src))) none
            (site.file, site.line))] ∧
      (∀ x, dst ≤ x ∧ x ≤ dst + strlen s.heap.mem src →
        x ∈ footprint cap (Call.PM_STRCPY dst src) site s) ∧
      ((dst + strlen s.heap.mem src + 1 ≤ src ∨ src + strlen s.heap.mem src + 1 ≤ dst) →
        footprint cap (Call.PM_STRCPY dst src) site s
            = List.range' dst (strlen s.heap.mem src + 1) ∧
          ∀ i, i ≤ strlen s.heap.mem src →
            (exec cap (Call.PM_STRCPY dst src) site s).2.heap.mem (dst + i)
              = s.heap.mem (src + i)) := by
  have hfuel : strlen s.heap.mem src < ADDR_SPACE := by
    unfold ADDR_SPACE; omega
  have hnz := strlenFrom_nonzero s.heap.mem ADDR_SPACE src
  refine ⟨?_, ?_, ?_⟩
  · simp [emitted, exec, PM_STRCPY, State.onHeap, PM_TRACE_log_on, hon,
      recorded_eq_min cap _ hcap hlen]
  · intro x hx
    obtain ⟨k, hk1, hk⟩ := strcpyLoop_written ADDR_SPACE dst src s.heap
      (strlen s.heap.mem src) hnz hfuel
    have hin : x ∈ List.range' dst k := by
      rw [List.mem_range'_1]; omega
    simpa [footprint, exec, PM_STRCPY, State.onHeap, strcpy, PM_TRACE_heap, hk] using hin
  · intro hdisj
    have hz : s.heap.mem (src + strlen s.heap.mem src) = 0 :=
      strlenFrom_terminator s.heap.mem ADDR_SPACE src hfuel
    obtain ⟨hw, hc, _⟩ := strcpyLoop_exact ADDR_SPACE dst src s.heap
      (strlen s.heap.mem src) hnz hz hfuel hdisj
    refine ⟨?_, ?_⟩
    · simp [footprint, exec, PM_STRCPY, State.onHeap, strcpy, PM_TRACE_heap, hw]
    · intro i hi
      simpa [exec, PM_STRCPY, State.onHeap, strcpy, PM_TRACE_heap] using hc i hi

/-- Instance of amended C11: the sample string "ab" copied to address 300. -/
theorem C11_strcpy_event_and_copy_witness :
    stateOn.pmfs_tracemask ≠ 0 ∧ nameLen < 2 ^ 31 ∧ strlen stateOn.heap.mem 100 < 2 ^ 31 ∧
      ((emitted nameLen (Call.PM_STRCPY 300 100) site0 stateOn).map TraceLine.toEvent
          = [some (Event.mk Kind.WRITE (some 300)
              (some (min nameLen (strlen stateOn.heap.mem 100))) none
              (site0.file, site0.line))] ∧
        (∀ x, 300 ≤ x ∧ x ≤ 300 + strlen stateOn.heap.mem 100 →
          x ∈ footprint nameLen (Call.PM_STRCPY 300 100) site0 stateOn) ∧
        ((300 + strlen stateOn.heap.mem 100 + 1 ≤ 100 ∨
            100 + strlen stateOn.heap.mem 100 + 1 ≤ 300) →
          footprint nameLen (Call.PM_STRCPY 300 100) site0 stateOn
              = List.range' 300 (strlen stateOn.heap.mem 100 + 1) ∧
            ∀ i, i ≤ strlen stateOn.heap.mem 100 →
              (exec nameLen (Call.PM_STRCPY 300 100) site0 stateOn).2.heap.mem (300 + i)
                = stateOn.heap.mem (100 + i))) :=
  ⟨by decide, by decide, by decide,
    C11_strcpy_event_and_copy nameLen 300 100 site0 stateOn (by decide) (by decide)
      (by decide)⟩

/-! ## Numbers as text -/

theorem charDigit_digitChar (d : Nat) (hd : d < 16) : charDigit (digitChar d) = d := by
  interval_cases d <;> rfl

theorem digitChar_ne_colon (d : Nat) : digitChar d ≠ ':' := by
  unfold digitChar
  split <;> decide

theorem readNat_renderNat (b : Nat) (hb1 : 1 < b) (hb : b ≤ 16) (n : Nat) :
    readNat b (renderNat b n) = n := by
  unfold renderNat readNat
  split
  · rename_i h0
    subst h0
    simp [charDigit]
  · have hmap : (Nat.digits b n).map (charDigit ∘ digitChar) = (Nat.digits b n).map id :=
      List.map_congr_left (fun d hd =>
        charDigit_digitChar d (lt_of_lt_of_le (Nat.digits_lt_base hb1 hd) hb))
    rw [← List.map_reverse, List.reverse_reverse, List.map_map, hmap, List.map_id,
      Nat.ofDigits_digits]

theorem renderNat_inj (b : Nat) (hb1 : 1 < b) (hb : b ≤ 16) (n m : Nat)
    (h : renderNat b n = renderNat b m) : n = m := by
  have := congrArg (readNat b) h
  rwa [readNat_renderNat b hb1 hb, readNat_renderNat b hb1 hb] at this

theorem ofDigits_replicate_zero (b k : Nat) : Nat.ofDigits b (List.replicate k 0) = 0 := by
  induction k with
  | zero => simp
  | succ k ih => simp [List.replicate_succ, Nat.ofDigits_cons, ih]

theorem readNat_renderPtr (a : Nat) : readNat 16 (renderPtr a) = a := by
  have h := readNat_renderNat 16 (by norm_num) (by norm_num) a
  unfold readNat at h
  unfold renderPtr readNat
  rw [List.reverse_append, List.map_append, Nat.ofDigits_append, h]
  have hz : (List.replicate (16 - (renderNat 16 a).length) '0').reverse.map charDigit
      = List.replicate (16 - (renderNat 16 a).length) 0 := by
    simp [charDigit]
  rw [hz, ofDigits_replicate_zero]
  simp

theorem renderPtr_inj (a b : Nat) (h : renderPtr a = renderPtr b) : a = b := by
  have := congrArg (readNat 16) h
  rwa [readNat_renderPtr, readNat_renderPtr] at this

theorem renderNat_no_colon (b n : Nat) : ':' ∉ renderNat b n := by
  unfold renderNat
  split
  · decide
  · intro hmem
    rw [List.mem_map] at hmem
    obtain ⟨d, _, hd⟩ := hmem
    exact digitChar_ne_colon d hd

theorem renderPtr_no_colon (a : Nat) : ':' ∉ renderPtr a := by
  unfold renderPtr
  intro hmem
  rw [List.mem_append] at hmem
  rcases hmem with hmem | hmem
  · have := List.eq_of_mem_replicate hmem
    exact absurd this (by decide)
  · exact renderNat_no_colon 16 a hmem

theorem renderInt_of_nonneg (i : Int) (hi : 0 ≤ i) : renderInt i = renderNat 10 i.toNat := by
  unfold renderInt
  simp [not_lt.mpr hi]

/-! ## Splitting a line at its delimiters -/

theorem sep_split (x : List Char) :
    ∀ (y r r1 : List Char), ':' ∉ x → ':' ∉ y → x ++ ':' :: r = y ++ ':' :: r1 →
      x = y ∧ r = r1 := by
  induction x with
  | nil =>
    intro y r r1 _ hy h
    cases y with
    | nil => simpa using h
    | cons c y1 =>
      simp only [List.nil_append, List.cons_append, List.cons.injEq] at h
      exact absurd (by rw [← h.1]; simp) hy
  | cons a x1 ih =>
    intro y r r1 hx hy h
    cases y with
    | nil =>
      simp only [List.nil_append, List.cons_append, List.cons.injEq] at h
      exact absurd (by rw [h.1]; simp) hx
    | cons c y1 =>
      simp only [List.cons_append, List.cons.injEq] at h
      obtain ⟨hx1, hy1⟩ : ':' ∉ x1 ∧ ':' ∉ y1 :=
        ⟨fun hm => hx (List.mem_cons_of_mem _ hm), fun hm => hy (List.mem_cons_of_mem _ hm)⟩
      obtain ⟨e1, e2⟩ := ih y1 r r1 hx1 hy1 h.2
      exact ⟨by rw [h.1, e1], e2⟩

theorem sep_split_last (f : List Char) :
    ∀ (g t t1 : List Char), ':' ∉ t → ':' ∉ t1 → f ++ ':' :: t = g ++ ':' :: t1 →
      f = g ∧ t = t1 := by
  induction f with
  | nil =>
    intro g t t1 ht _ h
    cases g with
    | nil => simpa using h
    | cons c g1 =>
      simp only [List.nil_append, List.cons_append, List.cons.injEq] at h
      exact absurd (by rw [h.2]; simp) ht
  | cons a f1 ih =>
    intro g t t1 ht ht1 h
    cases g with
    | nil =>
      simp only [List.nil_append, List.cons_append, List.cons.injEq] at h
      exact absurd (by rw [← h.2]; simp) ht1
    | cons c g1 =>
      simp only [List.cons_append, List.cons.injEq] at h
      obtain ⟨e1, e2⟩ := ih g1 t t1 ht ht1 h.2
      exact ⟨by rw [h.1, e1], e2⟩

/-! ## Injectivity of the text of an event -/

theorem tail_inj (f g : String) (n m : Int) (hn : 0 ≤ n) (hm : 0 ≤ m)
    (h : f.data ++ ':' :: (renderInt n ++ ['\n']) = g.data ++ ':' :: (renderInt m ++ ['\n'])) :
    f = g ∧ n = m := by
  rw [renderInt_of_nonneg n hn, renderInt_of_nonneg m hm] at h
  have hno : ∀ k : Nat, ':' ∉ renderNat 10 k ++ ['\n'] := by
    intro k hmem
    rw [List.mem_append] at hmem
    rcases hmem with hmem | hmem
    · exact renderNat_no_colon 10 k hmem
    · exact absurd (List.mem_singleton.mp hmem) (by decide)
  obtain ⟨e1, e2⟩ := sep_split_last f.data g.data _ _ (hno n.toNat) (hno m.toNat) h
  have e3 := renderNat_inj 10 (by norm_num) (by norm_num) _ _ (List.append_cancel_right e2)
  exact ⟨String.ext e1, by omega⟩

theorem marker_no_colon (k : Kind) : ':' ∉ k.marker.data := by
  cases k <;> decide

theorem marker_inj (k1 k2 : Kind) (h : k1.marker.data = k2.marker.data) : k1 = k2 := by
  cases k1 <;> cases k2 <;> first | rfl | exact absurd h (by decide)

theorem encode_inj (e1 e2 : Event) (h1 : e1.wellFormed = true) (h2 : e2.wellFormed = true)
    (h : e1.encode = e2.encode) : e1 = e2 := by
  obtain ⟨k1, a1, p1, d1, f1, n1⟩ := e1
  obtain ⟨k2, a2, p2, d2, f2, n2⟩ := e2
  unfold Event.encode at h
  obtain ⟨hk, hbody⟩ := sep_split _ _ _ _ (marker_no_colon k1) (marker_no_colon k2) h
  have hkk : k1 = k2 := marker_inj k1 k2 hk
  subst hkk
  have hn1 : 0 ≤ n1 := by
    simp only [Event.wellFormed, Bool.and_eq_true, decide_eq_true_eq] at h1
    exact h1.2
  have hn2 : 0 ≤ n2 := by
    simp only [Event.wellFormed, Bool.and_eq_true, decide_eq_true_eq] at h2
    exact h2.2
  cases k1 <;> cases a1 <;> cases p1 <;> cases d1 <;> simp [Event.wellFormed] at h1 <;>
    cases a2 <;> cases p2 <;> cases d2 <;> simp [Event.wellFormed] at h2 <;>
    simp only at hbody <;>
    first
    | (obtain ⟨ef, en⟩ := tail_inj f1 f2 n1 n2 hn1 hn2 hbody
       subst ef; subst en; rfl)
    | (obtain ⟨ea, hb1⟩ := sep_split _ _ _ _ (renderPtr_no_colon _) (renderPtr_no_colon _)
         hbody
       obtain ⟨ep, hb2⟩ := sep_split _ _ _ _ (renderNat_no_colon 10 _)
         (renderNat_no_colon 10 _) hb1
       obtain ⟨ef, en⟩ := tail_inj f1 f2 n1 n2 hn1 hn2 hb2
       have ea1 := renderPtr_inj _ _ ea
       have ep1 := renderNat_inj 10 (by norm_num) (by norm_num) _ _ ep
       subst ef; subst en; subst ea1; subst ep1; rfl)
    | (obtain ⟨ea, hb1⟩ := sep_split _ _ _ _ (renderPtr_no_colon _) (renderPtr_no_colon _)
         hbody
       obtain ⟨ed, hb2⟩ := sep_split _ _ _ _ (renderNat_no_colon 10 _)
         (renderNat_no_colon 10 _) hb1
       obtain ⟨ep, hb3⟩ := sep_split _ _ _ _ (renderNat_no_colon 10 _)
         (renderNat_no_colon 10 _) hb2
       obtain ⟨ef, en⟩ := tail_inj f1 f2 n1 n2 hn1 hn2 hb3
       have ea1 := renderPtr_inj _ _ ea
       have ed1 := renderNat_inj 10 (by norm_num) (by norm_num) _ _ ed
       have ep1 := renderNat_inj 10 (by norm_num) (by norm_num) _ _ ep
       subst ef; subst en; subst ea1; subst ed1; subst ep1; rfl)

/-! ## Text of the lines the wrappers emit -/

@[simp] theorem text_ulong (m : String) (a p : Nat) (f : String) (n : Int) :
    (TraceLine.mk "%s:%p:%lu:%s:%d\n"
        [Arg.str m, Arg.ptr a, Arg.ulong p, Arg.str f, Arg.int n]).text
      = String.mk (m.data ++ ':' :: (renderPtr a ++ ':' :: (renderNat 10 p ++ ':' ::
          (f.data ++ ':' :: (renderInt n ++ ['\n']))))) := rfl

@[simp] theorem text_uint (m : String) (a p : Nat) (f : String) (n : Int) :
    (TraceLine.mk "%s:%p:%u:%s:%d\n"
        [Arg.str m, Arg.ptr a, Arg.uint p, Arg.str f, Arg.int n]).text
      = String.mk (m.data ++ ':' :: (renderPtr a ++ ':' :: (renderNat 10 p ++ ':' ::
          (f.data ++ ':' :: (renderInt n ++ ['\n']))))) := rfl

@[simp] theorem text_ulong2 (m : String) (a d c : Nat) (f : String) (n : Int) :
    (TraceLine.mk "%s:%p:%lu:%lu:%s:%d\n"
        [Arg.str m, Arg.ptr a, Arg.ulong d, Arg.ulong c, Arg.str f, Arg.int n]).text
      = String.mk (m.data ++ ':' :: (renderPtr a ++ ':' :: (renderNat 10 d ++ ':' ::
          (renderNat 10 c ++ ':' :: (f.data ++ ':' :: (renderInt n ++ ['\n'])))))) := rfl

@[simp] theorem text_uint2 (m : String) (a d c : Nat) (f : String) (n : Int) :
    (TraceLine.mk "%s:%p:%u:%u:%s:%d\n"
        [Arg.str m, Arg.ptr a, Arg.uint d, Arg.uint c, Arg.str f, Arg.int n]).text
      = String.mk (m.data ++ ':' :: (renderPtr a ++ ':' :: (renderNat 10 d ++ ':' ::
          (renderNat 10 c ++ ':' :: (f.data ++ ':' :: (renderInt n ++ ['\n'])))))) := rfl

@[simp] theorem text_plain (m f : String) (n : Int) :
    (TraceLine.mk "%s:%s:%d\n" [Arg.str m, Arg.str f, Arg.int n]).text
      = String.mk (m.data ++ ':' :: (f.data ++ ':' :: (renderInt n ++ ['\n']))) := rfl

theorem emitted_text (cap : Nat) (c : Call) (site : Site) (s : State) (l : TraceLine)
    (hl : l ∈ emitted cap c site s) :
    ∃ e : Event, l.toEvent = some e ∧ e.wellFormed = true ∧ l.text = String.mk e.encode := by
  by_cases h0 : s.pmfs_tracemask = 0
  · rw [emitted_off cap c site s h0] at hl
    simp at hl
  · cases c <;>
      simp [emitted, exec, PM_STORE, PM_WRITE, PM_EQU, PM_OR_EQU, PM_AND_EQU, PM_ADD_EQU,
        PM_SUB_EQU, PM_MEMSET, PM_MEMCPY, PM_STRCPY, PM_MOVNTI, PM_READ, PM_READ_P, PM_RD_WR_P,
        PM_MEMCMP, start_epoch, end_epoch, start_txn, end_txn, PM_FLUSH, PM_COMMIT,
        PM_BARRIER, PM_FENCE, State.onHeap, PM_TRACE_log_on, PM_TRACE_mask, h0] at hl <;>
      (try rcases hl with rfl | rfl) <;>
      simp [Event.wellFormed, Event.encode, Kind.marker]

/-! ## C12 -/

/-- C12: the nine marker strings are pairwise distinct and each names its
kind; any two lines emitted by wrapper calls read as events, and if the
events differ (in kind, address, primary size, secondary size, origin file
or origin line) then the texts of the two lines differ, whatever characters
the origin file names contain. -/
theorem C12_text_injective (cap1 cap2 : Nat) (c1 c2 : Call) (site1 site2 : Site)
    (s1 s2 : State) (l1 l2 : TraceLine)
    (h1 : l1 ∈ emitted cap1 c1 site1 s1) (h2 : l2 ∈ emitted cap2 c2 site2 s2) :
    markers.Nodup ∧ (∀ k : Kind, kindOfMarker k.marker = some k) ∧
      ∃ e1 e2 : Event, l1.toEvent = some e1 ∧ l2.toEvent = some e2 ∧
        (e1 ≠ e2 → l1.text ≠ l2.text) := by
  refine ⟨by decide, fun k => by cases k <;> decide, ?_⟩
  obtain ⟨e1, he1, hw1, ht1⟩ := emitted_text cap1 c1 site1 s1 l1 h1
  obtain ⟨e2, he2, hw2, ht2⟩ := emitted_text cap2 c2 site2 s2 l2 h2
  refine ⟨e1, e2, he1, he2, ?_⟩
  intro hne htext
  rw [ht1, ht2] at htext
  exact hne (encode_inj e1 e2 hw1 hw2 (congrArg String.data htext))

/-- Instance of C12: the lines of PM_COMMIT at a call site whose file name
contains `:` and of PM_FENCE at the sample call site. -/
theorem C12_text_injective_witness :
    TraceLine.mk "%s:%s:%d\n"
        [Arg.str PM_COMMIT_MARKER, Arg.str "fs/pmfs:2/dir.c", Arg.int 7]
        ∈ emitted nameLen Call.PM_COMMIT siteColon stateOn ∧
      TraceLine.mk "%s:%s:%d\n"
        [Arg.str PM_FENCE_MARKER, Arg.str "fs/pmfs/inode.c", Arg.int 120]
        ∈ emitted nameLen Call.PM_FENCE site0 stateOn ∧
      (markers.Nodup ∧ (∀ k : Kind, kindOfMarker k.marker = some k) ∧
        ∃ e1 e2 : Event,
          (TraceLine.mk "%s:%s:%d\n"
            [Arg.str PM_COMMIT_MARKER, Arg.str "fs/pmfs:2/dir.c", Arg.int 7]).toEvent
            = some e1 ∧
          (TraceLine.mk "%s:%s:%d\n"
            [Arg.str PM_FENCE_MARKER, Arg.str "fs/pmfs/inode.c", Arg.int 120]).toEvent
            = some e2 ∧
          (e1 ≠ e2 →
            (TraceLine.mk "%s:%s:%d\n"
              [Arg.str PM_COMMIT_MARKER, Arg.str "fs/pmfs:2/dir.c", Arg.int 7]).text
            ≠ (TraceLine.mk "%s:%s:%d\n"
              [Arg.str PM_FENCE_MARKER, Arg.str "fs/pmfs/inode.c", Arg.int 120]).text)) :=
  ⟨by decide, by decide,
    C12_text_injective nameLen nameLen Call.PM_COMMIT Call.PM_FENCE siteColon site0
      stateOn stateOn _ _ (by decide) (by decide)⟩

/-! ## C13 -/

/-- C13 (as stated, refuted): PM_STORE on the 4 bytes at address 4096 stores
to no byte; its statement expression is void and the bytes of the field are
not among the bytes written. -/
theorem C13_store_performs_no_store_counterexample :
    footprint nameLen (Call.PM_STORE 4096 4) site0 stateOn = [] ∧
      (exec nameLen (Call.PM_STORE 4096 4) site0 stateOn).1 = Val.void ∧
      ¬ (∀ x, 4096 ≤ x ∧ x < 4096 + 4 →
        x ∈ footprint nameLen (Call.PM_STORE 4096 4) site0 stateOn) := by
  refine ⟨by decide, by decide, ?_⟩
  intro h
  exact absurd (h 4096 (by decide)) (by decide)

/-- C13 (amended): PM_STORE(pm_dst, bytes) performs no store, its value is
void and memory is as before; with tracing enabled and `bytes` representable
as `unsigned long` it appends exactly one WRITE line whose address is
`pm_dst` and whose size is `bytes`. -/
theorem C13_store_marks_only (pm_dst bytes : Nat) (site : Site) (s : State)
    (hon : s.pmfs_tracemask ≠ 0) (hbytes : bytes < 2 ^ 64) :
    (PM_STORE pm_dst bytes site s).2.heap = s.heap ∧
      (PM_STORE pm_dst bytes site s).1 = Val.void ∧
      ∃ l : TraceLine,
        (PM_STORE pm_dst bytes site s).2.log = s.log ++ [l] ∧
        l.toEvent = some (Event.mk Kind.WRITE (some pm_dst) (some bytes) none
          (site.file, site.line)) := by
  refine ⟨by simp [PM_STORE, PM_TRACE_heap], rfl, _, PM_TRACE_log_on _ _ s hon, ?_⟩
  simp [toULong]
  omega

/-- Instance of amended C13 on the sample field. -/
theorem C13_store_marks_only_witness :
    stateOn.pmfs_tracemask ≠ 0 ∧ 4 < 2 ^ 64 ∧
      ((PM_STORE 4096 4 site0 stateOn).2.heap = stateOn.heap ∧
        (PM_STORE 4096 4 site0 stateOn).1 = Val.void ∧
        ∃ l : TraceLine,
          (PM_STORE 4096 4 site0 stateOn).2.log = stateOn.log ++ [l] ∧
          l.toEvent = some (Event.mk Kind.WRITE (some 4096) (some 4) none
            (site0.file, site0.line))) :=
  ⟨by decide, by decide, C13_store_marks_only 4096 4 site0 stateOn (by decide) (by decide)⟩

/-! ## C14 -/

/-- C14 (as stated, refuted): PM_WRITE on the sample 4-byte field stores to
no byte; the bytes of the field are not among the bytes written. -/
theorem C14_write_performs_no_store_counterexample :
    footprint nameLen (Call.PM_WRITE fieldX) site0 stateOn = [] ∧
      ¬ (∀ x, fieldX.addr ≤ x ∧ x < fieldX.addr + fieldX.width →
        x ∈ footprint nameLen (Call.PM_WRITE fieldX) site0 stateOn) := by
  refine ⟨by decide, ?_⟩
  intro h
  exact absurd (h 4096 (by decide)) (by decide)

/-- C14 (amended): PM_WRITE(pm_dst) performs no store: memory is as before
and the value of the wrapper is the value the destination holds; with
tracing enabled it appends exactly one WRITE line whose address is the
address of `pm_dst` and whose size is its width. -/
theorem C14_write_yields_destination (pm_dst : Field) (site : Site) (s : State)
    (hon : s.pmfs_tracemask ≠ 0) :
    (PM_WRITE pm_dst site s).2.heap = s.heap ∧
      (PM_WRITE pm_dst site s).1 = Val.word (load s.heap.mem pm_dst.addr pm_dst.width) ∧
      ∃ l : TraceLine,
        (PM_WRITE pm_dst site s).2.log = s.log ++ [l] ∧
        l.toEvent = some (Event.mk Kind.WRITE (some pm_dst.addr) (some pm_dst.width) none
          (site.file, site.line)) := by
  refine ⟨by simp [PM_WRITE, PM_TRACE_heap], by simp [PM_WRITE, PM_TRACE_heap], _,
    PM_TRACE_log_on _ _ s hon, ?_⟩
  simp

/-- Instance of amended C14 on the sample field. -/
theorem C14_write_yields_destination_witness :
    stateOn.pmfs_tracemask ≠ 0 ∧
      ((PM_WRITE fieldX site0 stateOn).2.heap = stateOn.heap ∧
        (PM_WRITE fieldX site0 stateOn).1
          = Val.word (load stateOn.heap.mem fieldX.addr fieldX.width) ∧
        ∃ l : TraceLine,
          (PM_WRITE fieldX site0 stateOn).2.log = stateOn.log ++ [l] ∧
          l.toEvent = some (Event.mk Kind.WRITE (some fieldX.addr) (some fieldX.width) none
            (site0.file, site0.line))) :=
  ⟨by decide, C14_write_yields_destination fieldX site0 stateOn (by decide)⟩

/-! ## C15 -/

theorem strlenFrom_congr (m1 m2 : Nat → Nat) (fuel : Nat) :
    ∀ src, (∀ i, i ≤ strlenFrom m1 fuel src → m1 (src + i) = m2 (src + i)) →
      strlenFrom m2 fuel src = strlenFrom m1 fuel src := by
  induction fuel with
  | zero => intro src _; rfl
  | succ fuel ih =>
    intro src h
    have h0 : m1 src = m2 src := by simpa using h 0 (Nat.zero_le _)
    simp only [strlenFrom] at h ⊢
    by_cases hz : m1 src = 0
    · simp [hz, ← h0]
    · have hz2 : ¬ m2 src = 0 := by rwa [← h0]
      simp only [hz, hz2, if_false] at h ⊢
      have := ih (src + 1) (fun i hi => by
        have e : src + 1 + i = src + (i + 1) := by omega
        rw [e]; exact h (i + 1) (by omega))
      omega

/-- C15 (as stated, refuted): the states `stateOn` and `stateAbc` have the
same trace mask and differ only in the byte at address 102, which PM_STRCPY
from address 100 accesses (it is the terminator of the source string "ab");
the WRITE line of PM_STRCPY records size 2 in one state and size 3 in the
other. -/
theorem C15_strcpy_event_reads_memory_counterexample :
    stateOn.pmfs_tracemask = stateAbc.pmfs_tracemask ∧
      (∀ a, a ≠ 102 → stateOn.heap.mem a = stateAbc.heap.mem a) ∧
      (Call.PM_STRCPY 300 100).accessed stateOn.heap.mem 102 ∧
      (emitted nameLen (Call.PM_STRCPY 300 100) site0 stateOn).map TraceLine.toEvent
        = [some (Event.mk Kind.WRITE (some 300) (some 2) none ("fs/pmfs/inode.c", 120))] ∧
      (emitted nameLen (Call.PM_STRCPY 300 100) site0 stateAbc).map TraceLine.toEvent
        = [some (Event.mk Kind.WRITE (some 300) (some 3) none ("fs/pmfs/inode.c", 120))] ∧
      ¬ EventsIgnoreContents nameLen (Call.PM_STRCPY 300 100) site0 := by
  have hdiff : ∀ a, a ≠ 102 → stateOn.heap.mem a = stateAbc.heap.mem a := by
    intro a ha
    simp [stateOn, stateAbc, sampleHeap, ha]
  have hacc : (Call.PM_STRCPY 300 100).accessed stateOn.heap.mem 102 := by
    right
    decide
  refine ⟨rfl, hdiff, hacc, by decide, by decide, ?_⟩
  intro h
  have heq := h stateOn stateAbc rfl (fun a ha => by
    by_cases h102 : a = 102
    · subst h102; exact absurd hacc ha
    · exact hdiff a h102)
  exact absurd heq (by decide)

/-- C15 (amended): for every wrapper call other than PM_STRCPY, two states
with the same trace mask give the same trace lines whatever their memories
hold; for PM_STRCPY, whose recorded size is computed by strlen(src), two
states with the same trace mask that agree on the bytes of the source string
up to and including its terminator give the same trace lines. -/
theorem C15_events_independent_of_contents (cap : Nat) (c : Call) (site : Site)
    (s1 s2 : State) (hmask : s1.pmfs_tracemask = s2.pmfs_tracemask) :
    ((∀ d src, c ≠ Call.PM_STRCPY d src) → emitted cap c site s1 = emitted cap c site s2) ∧
      (∀ d src, c = Call.PM_STRCPY d src →
        (∀ i, i ≤ strlen s1.heap.mem src → s1.heap.mem (src + i) = s2.heap.mem (src + i)) →
        emitted cap c site s1 = emitted cap c site s2) := by
  by_cases h0 : s1.pmfs_tracemask = 0
  · have h02 : s2.pmfs_tracemask = 0 := by rw [← hmask]; exact h0
    rw [emitted_off cap c site s1 h0, emitted_off cap c site s2 h02]
    exact ⟨fun _ => rfl, fun _ _ _ _ => rfl⟩
  · have h2 : s2.pmfs_tracemask ≠ 0 := by rw [← hmask]; exact h0
    refine ⟨?_, ?_⟩
    · intro hne
      cases c <;>
        simp [emitted, exec, PM_STORE, PM_WRITE, PM_EQU, PM_OR_EQU, PM_AND_EQU, PM_ADD_EQU,
          PM_SUB_EQU, PM_MEMSET, PM_MEMCPY, PM_MOVNTI, PM_READ, PM_READ_P, PM_RD_WR_P,
          PM_MEMCMP, start_epoch, end_epoch, start_txn, end_txn, PM_FLUSH, PM_COMMIT,
          PM_BARRIER, PM_FENCE, State.onHeap, PM_TRACE_log_on, PM_TRACE_mask, h0, h2]
      exact absurd rfl (hne _ _)
    · intro d src hc hagree
      subst hc
      have hlen : strlen s2.heap.mem src = strlen s1.heap.mem src :=
        strlenFrom_congr s1.heap.mem s2.heap.mem ADDR_SPACE src hagree
      simp [emitted, exec, PM_STRCPY, State.onHeap, PM_TRACE_log_on, h0, h2, hlen]

/-- Instance of amended C15: PM_READ of the sample field in two states whose
memories differ. -/
theorem C15_events_independent_of_contents_witness :
    stateOn.pmfs_tracemask = stateAbc.pmfs_tracemask ∧
      (((∀ d src, Call.PM_READ fieldX ≠ Call.PM_STRCPY d src) →
          emitted nameLen (Call.PM_READ fieldX) site0 stateOn
            = emitted nameLen (Call.PM_READ fieldX) site0 stateAbc) ∧
        (∀ d src, Call.PM_READ fieldX = Call.PM_STRCPY d src →
          (∀ i, i ≤ strlen stateOn.heap.mem src →
            stateOn.heap.mem (src + i) = stateAbc.heap.mem (src + i)) →
          emitted nameLen (Call.PM_READ fieldX) site0 stateOn
            = emitted nameLen (Call.PM_READ fieldX) site0 stateAbc)) :=
  ⟨rfl, C15_events_independent_of_contents nameLen (Call.PM_READ fieldX) site0
    stateOn stateAbc rfl⟩

/-! ## C16 -/

/-- C16: with tracing enabled and both counts representable as `unsigned
int`, PM_FLUSH(pm_dst, count, done) appends exactly one line, which reads as
a FLUSH event with address `pm_dst`, primary size `count` and secondary size
`done`; in the text of the line `done` comes before `count`, and in the text
of the line of PM_MOVNTI (counts representable as `unsigned long`) `copied`
comes before `count` in the same way. -/
theorem C16_flush_event_and_order (pm_dst count done : Nat) (site : Site) (s : State)
    (hon : s.pmfs_tracemask ≠ 0) (hcount : count < 2 ^ 32) (hdone : done < 2 ^ 32) :
    (∃ l : TraceLine,
        (PM_FLUSH pm_dst count done site s).2.log = s.log ++ [l] ∧
        l.toEvent = some (Event.mk Kind.FLUSH (some pm_dst) (some count) (some done)
          (site.file, site.line)) ∧
        l.text = String.mk (PM_FLUSH_MARKER.data ++ ':' :: (renderPtr pm_dst ++ ':' ::
          (renderNat 10 done ++ ':' :: (renderNat 10 count ++ ':' ::
            (site.file.data ++ ':' :: (renderInt site.line ++ ['\n']))))))) ∧
      (∀ cnt copied : Nat, cnt < 2 ^ 64 → copied < 2 ^ 64 →
        ∃ l : TraceLine,
          (PM_MOVNTI pm_dst cnt copied site s).2.log = s.log ++ [l] ∧
          l.text = String.mk (PM_NTI.data ++ ':' :: (renderPtr pm_dst ++ ':' ::
            (renderNat 10 copied ++ ':' :: (renderNat 10 cnt ++ ':' ::
              (site.file.data ++ ':' :: (renderInt site.line ++ ['\n']))))))) := by
  have hc : toUInt count = count := Nat.mod_eq_of_lt hcount
  have hd : toUInt done = done := Nat.mod_eq_of_lt hdone
  refine ⟨⟨_, PM_TRACE_log_on _ _ s hon, ?_, ?_⟩, ?_⟩
  · simp [hc, hd]
  · simp [hc, hd]
  · intro cnt copied h1 h2
    have e1 : toULong cnt = cnt := Nat.mod_eq_of_lt h1
    have e2 : toULong copied = copied := Nat.mod_eq_of_lt h2
    refine ⟨_, PM_TRACE_log_on _ _ s hon, ?_⟩
    simp [e1, e2]

/-- Instance of C16: 64 bytes requested, 32 flushed. -/
theorem C16_flush_event_and_order_witness :
    stateOn.pmfs_tracemask ≠ 0 ∧ 64 < 2 ^ 32 ∧ 32 < 2 ^ 32 ∧
      ((∃ l : TraceLine,
          (PM_FLUSH 4096 64 32 site0 stateOn).2.log = stateOn.log ++ [l] ∧
          l.toEvent = some (Event.mk Kind.FLUSH (some 4096) (some 64) (some 32)
            (site0.file, site0.line)) ∧
          l.text = String.mk (PM_FLUSH_MARKER.data ++ ':' :: (renderPtr 4096 ++ ':' ::
            (renderNat 10 32 ++ ':' :: (renderNat 10 64 ++ ':' ::
              (site0.file.data ++ ':' :: (renderInt site0.line ++ ['\n']))))))) ∧
        (∀ cnt copied : Nat, cnt < 2 ^ 64 → copied < 2 ^ 64 →
          ∃ l : TraceLine,
            (PM_MOVNTI 4096 cnt copied site0 stateOn).2.log = stateOn.log ++ [l] ∧
            l.text = String.mk (PM_NTI.data ++ ':' :: (renderPtr 4096 ++ ':' ::
              (renderNat 10 copied ++ ':' :: (renderNat 10 cnt ++ ':' ::
                (site0.file.data ++ ':' :: (renderInt site0.line ++ ['\n'])))))))) :=
  ⟨by decide, by decide, by decide,
    C16_flush_event_and_order 4096 64 32 site0 stateOn (by decide) (by decide) (by decide)⟩

/-! ## C17 -/

/-- C17: every wrapper that only marks or reads (PM_STORE, PM_WRITE,
PM_MOVNTI, PM_FLUSH, PM_COMMIT, PM_BARRIER, PM_FENCE, start_txn, end_txn,
start_epoch, end_epoch, PM_READ, PM_READ_P, PM_RD_WR_P, PM_MEMCMP) leaves the
memory (contents and store history) as it found it, whatever the trace mask;
start_epoch and end_epoch leave the whole state unchanged and emit no line,
also when tracing is enabled. -/
theorem C17_mark_and_read_frame (cap : Nat) (c : Call) (site : Site) (s : State)
    (hc : c.marksOrReads = true) :
    (exec cap c site s).2.heap = s.heap ∧
      (∀ a, (exec cap c site s).2.heap.mem a = s.heap.mem a) ∧
      footprint cap c site s = [] ∧
      (exec cap Call.start_epoch site s).2 = s ∧ (exec cap Call.end_epoch site s).2 = s ∧
      emitted cap Call.start_epoch site s = [] ∧ emitted cap Call.end_epoch site s = [] := by
  have hheap : (exec cap c site s).2.heap = s.heap := by
    cases c <;> simp [Call.marksOrReads] at hc <;>
      simp [exec, PM_STORE, PM_WRITE, PM_MOVNTI, PM_READ, PM_READ_P, PM_RD_WR_P, PM_MEMCMP,
        start_epoch, end_epoch, start_txn, end_txn, PM_FLUSH, PM_COMMIT, PM_BARRIER, PM_FENCE,
        State.onHeap, memcmp, PM_TRACE_heap]
  refine ⟨hheap, fun a => by rw [hheap], ?_, rfl, rfl, rfl, rfl⟩
  simp [footprint, hheap]

/-- Instance of C17: PM_MEMCMP on the sample state with tracing enabled. -/
theorem C17_mark_and_read_frame_witness :
    (Call.PM_MEMCMP 100 101 2).marksOrReads = true ∧
      ((exec nameLen (Call.PM_MEMCMP 100 101 2) site0 stateOn).2.heap = stateOn.heap ∧
        (∀ a, (exec nameLen (Call.PM_MEMCMP 100 101 2) site0 stateOn).2.heap.mem a
          = stateOn.heap.mem a) ∧
        footprint nameLen (Call.PM_MEMCMP 100 101 2) site0 stateOn = [] ∧
        (exec nameLen Call.start_epoch site0 stateOn).2 = stateOn ∧
        (exec nameLen Call.end_epoch site0 stateOn).2 = stateOn ∧
        emitted nameLen Call.start_epoch site0 stateOn = [] ∧
        emitted nameLen Call.end_epoch site0 stateOn = []) :=
  ⟨rfl, C17_mark_and_read_frame nameLen (Call.PM_MEMCMP 100 101 2) site0 stateOn rfl⟩

/-! ## C18 -/

/-- C18: for any two non-zero values of `pmfs_tracemask` and any wrapper call
from the same state, the trace buffer, the value and the memory after the
call are the same; with the mask 0 the trace buffer is left as it was, and
with a non-zero mask every wrapper that has a marker extends it. -/
theorem C18_mask_is_a_flag (cap : Nat) (c : Call) (site : Site) (s : State) (m1 m2 : Nat)
    (h1 : m1 ≠ 0) (h2 : m2 ≠ 0) :
    (exec cap c site { s with pmfs_tracemask := m1 }).2.log
        = (exec cap c site { s with pmfs_tracemask := m2 }).2.log ∧
      (exec cap c site { s with pmfs_tracemask := m1 }).1
        = (exec cap c site { s with pmfs_tracemask := m2 }).1 ∧
      (exec cap c site { s with pmfs_tracemask := m1 }).2.heap
        = (exec cap c site { s with pmfs_tracemask := m2 }).2.heap ∧
      (exec cap c site { s with pmfs_tracemask := 0 }).2.log = s.log ∧
      (c.traced = true → (exec cap c site { s with pmfs_tracemask := m1 }).2.log ≠ s.log) := by
  refine ⟨?_, ?_, ?_, ?_, ?_⟩
  · cases c <;>
      simp [exec, PM_STORE, PM_WRITE, PM_EQU, PM_OR_EQU, PM_AND_EQU, PM_ADD_EQU, PM_SUB_EQU,
        PM_MEMSET, PM_MEMCPY, PM_STRCPY, PM_MOVNTI, PM_READ, PM_READ_P, PM_RD_WR_P, PM_MEMCMP,
        start_epoch, end_epoch, start_txn, end_txn, PM_FLUSH, PM_COMMIT, PM_BARRIER, PM_FENCE,
        State.onHeap, PM_TRACE, pmfs_trace_printk, trace_printk, h1, h2]
  · cases c <;>
      simp [exec, PM_STORE, PM_WRITE, PM_EQU, PM_OR_EQU, PM_AND_EQU, PM_ADD_EQU, PM_SUB_EQU,
        PM_MEMSET, PM_MEMCPY, PM_STRCPY, PM_MOVNTI, PM_READ, PM_READ_P, PM_RD_WR_P, PM_MEMCMP,
        start_epoch, end_epoch, start_txn, end_txn, PM_FLUSH, PM_COMMIT, PM_BARRIER, PM_FENCE,
        State.onHeap, PM_TRACE_heap]
  · cases c <;>
      simp [exec, PM_STORE, PM_WRITE, PM_EQU, PM_OR_EQU, PM_AND_EQU, PM_ADD_EQU, PM_SUB_EQU,
        PM_MEMSET, PM_MEMCPY, PM_STRCPY, PM_MOVNTI, PM_READ, PM_READ_P, PM_RD_WR_P, PM_MEMCMP,
        start_epoch, end_epoch, start_txn, end_txn, PM_FLUSH, PM_COMMIT, PM_BARRIER, PM_FENCE,
        State.onHeap, PM_TRACE_heap]
  · exact exec_log_off cap c site { s with pmfs_tracemask := 0 } rfl
  · intro ht
    cases c <;> simp [Call.traced] at ht <;>
      simp [exec, PM_STORE, PM_WRITE, PM_EQU, PM_OR_EQU, PM_AND_EQU, PM_ADD_EQU, PM_SUB_EQU,
        PM_MEMSET, PM_MEMCPY, PM_STRCPY, PM_MOVNTI, PM_READ, PM_READ_P, PM_RD_WR_P, PM_MEMCMP,
        start_txn, end_txn, PM_FLUSH, PM_COMMIT, PM_BARRIER, PM_FENCE,
        State.onHeap, PM_TRACE, pmfs_trace_printk, trace_printk, h1]

/-- Instance of C18: the masks 1 and 4 on PM_EQU of the sample field. -/
theorem C18_mask_is_a_flag_witness :
    (1 : Nat) ≠ 0 ∧ (4 : Nat) ≠ 0 ∧
      ((exec nameLen (Call.PM_EQU fieldX 7) site0 { stateOff with pmfs_tracemask := 1 }).2.log
          = (exec nameLen (Call.PM_EQU fieldX 7) site0
              { stateOff with pmfs_tracemask := 4 }).2.log ∧
        (exec nameLen (Call.PM_EQU fieldX 7) site0 { stateOff with pmfs_tracemask := 1 }).1
          = (exec nameLen (Call.PM_EQU fieldX 7) site0
              { stateOff with pmfs_tracemask := 4 }).1 ∧
        (exec nameLen (Call.PM_EQU fieldX 7) site0
            { stateOff with pmfs_tracemask := 1 }).2.heap
          = (exec nameLen (Call.PM_EQU fieldX 7) site0
              { stateOff with pmfs_tracemask := 4 }).2.heap ∧
        (exec nameLen (Call.PM_EQU fieldX 7) site0
            { stateOff with pmfs_tracemask := 0 }).2.log = stateOff.log ∧
        ((Call.PM_EQU fieldX 7).traced = true →
          (exec nameLen (Call.PM_EQU fieldX 7) site0
            { stateOff with pmfs_tracemask := 1 }).2.log ≠ stateOff.log)) :=
  ⟨by decide, by decide,
    C18_mask_is_a_flag nameLen (Call.PM_EQU fieldX 7) site0 stateOff 1 4 (by decide)
      (by decide)⟩

end PmInstr
